import Mathlib

set_option linter.unusedVariables false

/-!
Verification of the sqlit repository against its specification.

Shallow embedding of:
* the vim motion engine (`sqlit/domains/query/editing/motions.py`),
* the process worker and its client
  (`sqlit/domains/query/app/process_worker.py`, `process_worker_client.py`),
* the UI query routing logic
  (`sqlit/domains/query/ui/mixins/query_execution.py`, `_run_query_async`),
* the Azure SQL adapter (`sqlit/db/adapters/azure_sql.py`),
* the driver import helper (`sqlit/domains/connections/providers/driver.py`).

Python strings are modelled as `String` converted to `List Char` at the
boundary (all list operations are structural so that concrete instances
evaluate by kernel reduction).  Machine integers do not overflow in any of
the modelled code paths, so `Int`/`Nat` are used directly.
-/

namespace Sqlit

/-! ## Vim motion engine: data types (from `editing/types.py`, reconstructed
from the dataclass constructor calls in `motions.py`: `Position(row, col)`,
`Range(start, end, type, inclusive=False)`,
`MotionResult(position, range=None)`). -/

inductive MotionType where
  | CHARWISE
  | LINEWISE
  | BLOCKWISE
deriving DecidableEq, Repr

/-- `Position(row, col)`.  The motion functions only ever construct
positions with natural coordinates, so the fields are `Nat`. -/
structure Position where
  row : Nat
  col : Nat
deriving DecidableEq, Repr

/-- `Range(start, end, type, inclusive)`; `end` and `type` are Lean keywords
so the fields are named `stop` and `mtype`. -/
structure MRange where
  start : Position
  stop : Position
  mtype : MotionType
  inclusive : Bool
deriving DecidableEq, Repr

/-- `MotionResult(position, range=None)`. -/
structure MotionResult where
  position : Position
  range : Option MRange
deriving DecidableEq, Repr

/-! ## String primitives.

Python `text.split("\n")` keeps empty pieces and returns `[""]` on the
empty string; `splitNl` mirrors that on character lists. -/

/-- Model of Python `text.split("\n")` on a character list. -/
def splitNl : List Char → List (List Char)
  | [] => [[]]
  | c :: rest =>
    if c = '\n' then [] :: splitNl rest
    else
      match splitNl rest with
      | [] => [[c]]
      | h :: t => (c :: h) :: t

/-- `_is_word_char`: vim "word" characters (`ch.isalnum() or ch == "_"`). -/
def _is_word_char (ch : Char) : Bool :=
  ch.isAlphanum || ch == '_'

/-- `_is_WORD_char`: vim "WORD" characters (`not ch.isspace()`). -/
def _is_WORD_char (ch : Char) : Bool :=
  !ch.isWhitespace

/-- Result of `_normalize`: the line list and the clamped cursor. -/
structure Normed where
  lines : List (List Char)
  row : Nat
  col : Nat

/-- The line list of a text: `text.split("\n")` with the `if not lines`
guard of `_normalize`. -/
def linesOfText (text : String) : List (List Char) :=
  let lines0 := splitNl text.toList
  if lines0.isEmpty then [[]] else lines0

/-- `_normalize(text, row, col)`: split into lines and clamp `row` to
`[0, len(lines)-1]`, `col` to `[0, len(lines[row])]`.  Rows/cols come in as
Python ints. -/
def _normalize (text : String) (row col : Int) : Normed :=
  let lines := linesOfText text
  let r : Nat := (max 0 (min row ((lines.length : Int) - 1))).toNat
  let c : Nat := (max 0 (min col (((lines.getD r []).length : Int)))).toNat
  ⟨lines, r, c⟩

/-! ## Scan loops of the word motions.

`scanF p line col` is the loop `while col < len(line) and p(line[col]): col += 1`;
`scanB p line col` is `while col > 0 and p(line[col-1]): col -= 1`;
`scanE p line col` is `while col < len(line) - 1 and p(line[col+1]): col += 1`.
Out-of-range reads (impossible in the reachable call sites, where Python
would raise) terminate the loop. -/

/-- The forward loops advance `col` by one while `col < len(line)`, so
`line.length - col` bounds the number of iterations; recursion is on that
fuel so that concrete instances evaluate by kernel reduction. -/
def scanFGo (p : Char → Bool) (line : List Char) : Nat → Nat → Nat
  | 0, col => col
  | fuel + 1, col =>
    match line.get? col with
    | some ch => if p ch then scanFGo p line fuel (col + 1) else col
    | none => col

def scanF (p : Char → Bool) (line : List Char) (col : Nat) : Nat :=
  scanFGo p line (line.length - col) col

def scanB (p : Char → Bool) (line : List Char) : Nat → Nat
  | 0 => 0
  | c + 1 =>
    match line.get? c with
    | some ch => if p ch then scanB p line c else c + 1
    | none => c + 1

def scanEGo (p : Char → Bool) (line : List Char) : Nat → Nat → Nat
  | 0, col => col
  | fuel + 1, col =>
    match line.get? (col + 1) with
    | some ch => if p ch then scanEGo p line fuel (col + 1) else col
    | none => col

def scanE (p : Char → Bool) (line : List Char) (col : Nat) : Nat :=
  scanEGo p line (line.length - col) col

/-! ## Word motions (`motion_word`, `motion_WORD`, `motion_word_back`,
`motion_WORD_back`, `motion_word_end`, `motion_WORD_end`). -/

/-- `motion_word` (w): move to start of next word. -/
def motion_word (text : String) (row col : Int) (char : Option Char) : MotionResult :=
  let n := _normalize text row col
  let startPos : Position := ⟨n.row, n.col⟩
  let line := n.lines.getD n.row []
  -- Skip current word
  let c1 := scanF _is_word_char line n.col
  -- Skip punctuation if we started on word
  let c2 := scanF (fun ch => !_is_word_char ch && !ch.isWhitespace) line c1
  -- Skip whitespace
  let c3 := scanF Char.isWhitespace line c2
  -- If at end of line, try next line
  let advance := c3 ≥ line.length ∧ n.row < n.lines.length - 1
  let r' := if advance then n.row + 1 else n.row
  let c' := if advance then scanF Char.isWhitespace (n.lines.getD (n.row + 1) []) 0 else c3
  let endPos : Position := ⟨r', c'⟩
  ⟨endPos, some ⟨startPos, endPos, MotionType.CHARWISE, false⟩⟩

/-- `motion_WORD` (W): move to start of next WORD. -/
def motion_WORD (text : String) (row col : Int) (char : Option Char) : MotionResult :=
  let n := _normalize text row col
  let startPos : Position := ⟨n.row, n.col⟩
  let line := n.lines.getD n.row []
  -- Skip current WORD (non-whitespace)
  let c1 := scanF _is_WORD_char line n.col
  -- Skip whitespace
  let c2 := scanF Char.isWhitespace line c1
  -- If at end of line, try next line
  let advance := c2 ≥ line.length ∧ n.row < n.lines.length - 1
  let r' := if advance then n.row + 1 else n.row
  let c' := if advance then scanF Char.isWhitespace (n.lines.getD (n.row + 1) []) 0 else c2
  let endPos : Position := ⟨r', c'⟩
  ⟨endPos, some ⟨startPos, endPos, MotionType.CHARWISE, false⟩⟩

/-- `motion_word_back` (b): move to start of previous word. -/
def motion_word_back (text : String) (row col : Int) (char : Option Char) : MotionResult :=
  let n := _normalize text row col
  let endPos : Position := ⟨n.row, n.col⟩
  -- If at start of line, go to previous line
  let back := n.col = 0 ∧ n.row > 0
  let r' := if back then n.row - 1 else n.row
  let line := n.lines.getD r' []
  let c0 := if back then line.length else n.col
  -- Skip whitespace backwards
  let c1 := scanB Char.isWhitespace line c0
  -- Skip to start of word
  let c2 :=
    if c1 > 0 then
      if _is_word_char (line.getD (c1 - 1) ' ') then scanB _is_word_char line c1
      else scanB (fun ch => !_is_word_char ch && !ch.isWhitespace) line c1
    else c1
  let startPos : Position := ⟨r', c2⟩
  ⟨startPos, some ⟨startPos, endPos, MotionType.CHARWISE, false⟩⟩

/-- `motion_WORD_back` (B): move to start of previous WORD. -/
def motion_WORD_back (text : String) (row col : Int) (char : Option Char) : MotionResult :=
  let n := _normalize text row col
  let endPos : Position := ⟨n.row, n.col⟩
  -- If at start of line, go to previous line
  let back := n.col = 0 ∧ n.row > 0
  let r' := if back then n.row - 1 else n.row
  let line := n.lines.getD r' []
  let c0 := if back then line.length else n.col
  -- Skip whitespace backwards
  let c1 := scanB Char.isWhitespace line c0
  -- Skip to start of WORD
  let c2 := scanB _is_WORD_char line c1
  let startPos : Position := ⟨r', c2⟩
  ⟨startPos, some ⟨startPos, endPos, MotionType.CHARWISE, false⟩⟩

/-- `motion_word_end` (e): move to end of current/next word. -/
def motion_word_end (text : String) (row col : Int) (char : Option Char) : MotionResult :=
  let n := _normalize text row col
  let startPos : Position := ⟨n.row, n.col⟩
  let line0 := n.lines.getD n.row []
  -- Move at least one character
  let cA := if n.col < line0.length then n.col + 1 else n.col
  -- Skip whitespace
  let cB := scanF Char.isWhitespace line0 cA
  -- If at end of line, try next line
  let advance := cB ≥ line0.length ∧ n.row < n.lines.length - 1
  let r' := if advance then n.row + 1 else n.row
  let line := n.lines.getD r' []
  let cC := if advance then scanF Char.isWhitespace line 0 else cB
  -- Move to end of word
  let cD :=
    if cC < line.length then
      if _is_word_char (line.getD cC ' ') then scanE _is_word_char line cC
      else scanE (fun ch => !_is_word_char ch && !ch.isWhitespace) line cC
    else cC
  let endPos : Position := ⟨r', cD⟩
  ⟨endPos, some ⟨startPos, endPos, MotionType.CHARWISE, true⟩⟩

/-- `motion_WORD_end` (E): move to end of current/next WORD. -/
def motion_WORD_end (text : String) (row col : Int) (char : Option Char) : MotionResult :=
  let n := _normalize text row col
  let startPos : Position := ⟨n.row, n.col⟩
  let line0 := n.lines.getD n.row []
  -- Move at least one character
  let cA := if n.col < line0.length then n.col + 1 else n.col
  -- Skip whitespace
  let cB := scanF Char.isWhitespace line0 cA
  -- If at end of line, try next line
  let advance := cB ≥ line0.length ∧ n.row < n.lines.length - 1
  let r' := if advance then n.row + 1 else n.row
  let line := n.lines.getD r' []
  let cC := if advance then scanF Char.isWhitespace line 0 else cB
  -- Move to end of WORD
  let cD := scanE _is_WORD_char line cC
  let endPos : Position := ⟨r', cD⟩
  ⟨endPos, some ⟨startPos, endPos, MotionType.CHARWISE, true⟩⟩

/-! ## Basic motions (`motion_left`, `motion_down`, `motion_up`,
`motion_right`) and line motions (`motion_line_start`, `motion_line_end`,
`motion_last_line`). -/

/-- `motion_left` (h). -/
def motion_left (text : String) (row col : Int) (char : Option Char) : MotionResult :=
  let n := _normalize text row col
  let new_col := n.col - 1
  ⟨⟨n.row, new_col⟩,
    some ⟨⟨n.row, new_col⟩, ⟨n.row, n.col⟩, MotionType.CHARWISE, false⟩⟩

/-- `motion_down` (j). -/
def motion_down (text : String) (row col : Int) (char : Option Char) : MotionResult :=
  let n := _normalize text row col
  let new_row := min (n.row + 1) (n.lines.length - 1)
  let new_col := min n.col (n.lines.getD new_row []).length
  ⟨⟨new_row, new_col⟩,
    some ⟨⟨n.row, 0⟩, ⟨new_row, (n.lines.getD new_row []).length⟩, MotionType.LINEWISE, false⟩⟩

/-- `motion_up` (k). -/
def motion_up (text : String) (row col : Int) (char : Option Char) : MotionResult :=
  let n := _normalize text row col
  let new_row := n.row - 1
  let new_col := min n.col (n.lines.getD new_row []).length
  ⟨⟨new_row, new_col⟩,
    some ⟨⟨new_row, 0⟩, ⟨n.row, (n.lines.getD n.row []).length⟩, MotionType.LINEWISE, false⟩⟩

/-- `motion_right` (l). -/
def motion_right (text : String) (row col : Int) (char : Option Char) : MotionResult :=
  let n := _normalize text row col
  let new_col := min (n.col + 1) (n.lines.getD n.row []).length
  ⟨⟨n.row, new_col⟩,
    some ⟨⟨n.row, n.col⟩, ⟨n.row, new_col⟩, MotionType.CHARWISE, true⟩⟩

/-- `motion_line_start` (0). -/
def motion_line_start (text : String) (row col : Int) (char : Option Char) : MotionResult :=
  let n := _normalize text row col
  ⟨⟨n.row, 0⟩,
    some ⟨⟨n.row, 0⟩, ⟨n.row, n.col⟩, MotionType.CHARWISE, false⟩⟩

/-- `motion_line_end` ($). -/
def motion_line_end (text : String) (row col : Int) (char : Option Char) : MotionResult :=
  let n := _normalize text row col
  let end_col := (n.lines.getD n.row []).length
  ⟨⟨n.row, end_col⟩,
    some ⟨⟨n.row, n.col⟩, ⟨n.row, end_col⟩, MotionType.CHARWISE, true⟩⟩

/-- `motion_last_line` (G). -/
def motion_last_line (text : String) (row col : Int) (char : Option Char) : MotionResult :=
  let n := _normalize text row col
  let last_row := n.lines.length - 1
  ⟨⟨last_row, 0⟩,
    some ⟨⟨n.row, 0⟩, ⟨last_row, (n.lines.getD last_row []).length⟩, MotionType.LINEWISE, false⟩⟩

/-! ## Character search motions (`motion_find_char`, `motion_find_char_back`,
`motion_till_char`, `motion_till_char_back`).

`findFrom line c i` is the loop `for i in range(i, len(line)): if line[i] == c`;
`rfindFrom line c k` is `for i in range(k-1, -1, -1): if line[i] == c`
(all call sites keep the indices in bounds, where Python would raise). -/

def findFromGo (line : List Char) (c : Char) : Nat → Nat → Option Nat
  | 0, _ => none
  | fuel + 1, i =>
    match line.get? i with
    | some ch => if ch = c then some i else findFromGo line c fuel (i + 1)
    | none => none

def findFrom (line : List Char) (c : Char) (i : Nat) : Option Nat :=
  findFromGo line c (line.length - i) i

def rfindFrom (line : List Char) (c : Char) : Nat → Option Nat
  | 0 => none
  | i + 1 => if line.get? i = some c then some i else rfindFrom line c i

/-- `motion_find_char` (f{char}): move to next occurrence of char. -/
def motion_find_char (text : String) (row col : Int) (char : Option Char) : MotionResult :=
  let n := _normalize text row col
  let startPos : Position := ⟨n.row, n.col⟩
  match char with
  | none => ⟨startPos, none⟩
  | some c =>
    let line := n.lines.getD n.row []
    -- Search forward from col+1
    match findFrom line c (n.col + 1) with
    | some i =>
      ⟨⟨n.row, i⟩, some ⟨startPos, ⟨n.row, i⟩, MotionType.CHARWISE, true⟩⟩
    -- Not found - stay in place
    | none => ⟨startPos, none⟩

/-- `motion_find_char_back` (F{char}): move to previous occurrence of char. -/
def motion_find_char_back (text : String) (row col : Int) (char : Option Char) : MotionResult :=
  let n := _normalize text row col
  let endPos : Position := ⟨n.row, n.col⟩
  match char with
  | none => ⟨endPos, none⟩
  | some c =>
    let line := n.lines.getD n.row []
    -- Search backward from col-1
    match rfindFrom line c n.col with
    | some i =>
      ⟨⟨n.row, i⟩, some ⟨⟨n.row, i⟩, endPos, MotionType.CHARWISE, true⟩⟩
    -- Not found - stay in place
    | none => ⟨endPos, none⟩

/-- `motion_till_char` (t{char}): move to just before next occurrence. -/
def motion_till_char (text : String) (row col : Int) (char : Option Char) : MotionResult :=
  let n := _normalize text row col
  let startPos : Position := ⟨n.row, n.col⟩
  match char with
  | none => ⟨startPos, none⟩
  | some _ =>
    let result := motion_find_char text (n.row : Int) (n.col : Int) char
    if result.position.col > n.col then
      -- Stop one before the found character
      let new_col := result.position.col - 1
      ⟨⟨n.row, new_col⟩, some ⟨startPos, ⟨n.row, new_col⟩, MotionType.CHARWISE, true⟩⟩
    else result

/-- `motion_till_char_back` (T{char}): move to just after previous occurrence. -/
def motion_till_char_back (text : String) (row col : Int) (char : Option Char) : MotionResult :=
  let n := _normalize text row col
  let endPos : Position := ⟨n.row, n.col⟩
  match char with
  | none => ⟨endPos, none⟩
  | some _ =>
    let result := motion_find_char_back text (n.row : Int) (n.col : Int) char
    if result.position.col < n.col then
      -- Stop one after the found character
      let new_col := result.position.col + 1
      ⟨⟨n.row, new_col⟩, some ⟨⟨n.row, new_col⟩, endPos, MotionType.CHARWISE, true⟩⟩
    else result

/-! ## Bracket matching (`motion_matching_bracket`, `BRACKET_PAIRS`).

The nested `while` loops of the source are decomposed per line:
`scanBracketLineF`/`scanBracketLineB` scan one line and report either the
column of the balancing bracket (`Sum.inl`) or the depth after the line
(`Sum.inr`); `scanBracketRowsF`/`scanBracketRowsB` iterate over rows.
The closing curly brace is written `Char.ofNat 125` and the opening one
`Char.ofNat 123`. -/

def BRACKET_PAIRS : List (Char × Char) :=
  [('(', ')'), (')', '('),
   ('[', ']'), (']', '['),
   (Char.ofNat 123, Char.ofNat 125), (Char.ofNat 125, Char.ofNat 123)]

def findBracketFromGo (line : List Char) : Nat → Nat → Option Nat
  | 0, _ => none
  | fuel + 1, i =>
    match line.get? i with
    | some ch =>
      if (BRACKET_PAIRS.lookup ch).isSome then some i else findBracketFromGo line fuel (i + 1)
    | none => none

def findBracketFrom (line : List Char) (i : Nat) : Option Nat :=
  findBracketFromGo line (line.length - i) i

def scanBracketLineFGo (ch target : Char) (line : List Char) :
    Nat → Nat → Nat → Sum Nat Nat
  | 0, depth, _ => Sum.inr depth
  | fuel + 1, depth, c =>
    match line.get? c with
    | some x =>
      if x = ch then scanBracketLineFGo ch target line fuel (depth + 1) (c + 1)
      else if x = target then
        if depth = 1 then Sum.inl c
        else scanBracketLineFGo ch target line fuel (depth - 1) (c + 1)
      else scanBracketLineFGo ch target line fuel depth (c + 1)
    | none => Sum.inr depth

def scanBracketLineF (ch target : Char) (line : List Char) (depth c : Nat) : Sum Nat Nat :=
  scanBracketLineFGo ch target line (line.length - c) depth c

def scanBracketRowsFGo (lines : List (List Char)) (ch target : Char) :
    Nat → Nat → Nat → Nat → Option (Nat × Nat)
  | 0, _, _, _ => none
  | fuel + 1, depth, r, c =>
    if r < lines.length then
      match scanBracketLineF ch target (lines.getD r []) depth c with
      | Sum.inl c' => some (r, c')
      | Sum.inr d' => scanBracketRowsFGo lines ch target fuel d' (r + 1) 0
    else none

def scanBracketRowsF (lines : List (List Char)) (ch target : Char)
    (depth r c : Nat) : Option (Nat × Nat) :=
  scanBracketRowsFGo lines ch target (lines.length - r) depth r c

/-- Backward scan of one line: the counter is `c+1` where `c` is the Python
index (so `0` means Python's `c == -1`, i.e. the inner loop is done). -/
def scanBracketLineB (ch target : Char) (line : List Char) (depth : Nat) :
    Nat → Sum Nat Nat
  | 0 => Sum.inr depth
  | c + 1 =>
    match line.get? c with
    | some x =>
      if x = ch then scanBracketLineB ch target line (depth + 1) c
      else if x = target then
        if depth = 1 then Sum.inl c
        else scanBracketLineB ch target line (depth - 1) c
      else scanBracketLineB ch target line depth c
    | none => scanBracketLineB ch target line depth c

def scanBracketRowsB (lines : List (List Char)) (ch target : Char)
    (depth : Nat) : Nat → Nat → Option (Nat × Nat)
  | r, k =>
    match scanBracketLineB ch target (lines.getD r []) depth k with
    | Sum.inl c' => some (r, c')
    | Sum.inr d' =>
      match r with
      | 0 => none
      | r' + 1 => scanBracketRowsB lines ch target d' r' (lines.getD r' []).length

/-- `motion_matching_bracket` (%): move to matching bracket. -/
def motion_matching_bracket (text : String) (row col : Int) (char : Option Char) :
    MotionResult :=
  let n := _normalize text row col
  let startPos : Position := ⟨n.row, n.col⟩
  let line := n.lines.getD n.row []
  if n.col ≥ line.length then ⟨startPos, none⟩
  else
    -- If not on a bracket, search forward on current line for one
    let found :=
      if (BRACKET_PAIRS.lookup (line.getD n.col ' ')).isSome then some n.col
      else findBracketFrom line n.col
    match found with
    | none => ⟨startPos, none⟩
    | some c0 =>
      let ch := line.getD c0 ' '
      let target := (BRACKET_PAIRS.lookup ch).getD ' '
      let forward := ch = '(' ∨ ch = '[' ∨ ch = Char.ofNat 123
      if forward then
        match scanBracketRowsF n.lines ch target 1 n.row (c0 + 1) with
        | some rc =>
          ⟨⟨rc.1, rc.2⟩, some ⟨startPos, ⟨rc.1, rc.2⟩, MotionType.CHARWISE, true⟩⟩
        | none => ⟨startPos, none⟩
      else
        match scanBracketRowsB n.lines ch target 1 n.row c0 with
        | some rc =>
          ⟨⟨rc.1, rc.2⟩, some ⟨⟨rc.1, rc.2⟩, startPos, MotionType.CHARWISE, true⟩⟩
        | none => ⟨startPos, none⟩

/-- The motion registry (`MOTIONS`). -/
def MOTIONS : List (String × (String → Int → Int → Option Char → MotionResult)) :=
  [("h", motion_left),
   ("j", motion_down),
   ("k", motion_up),
   ("l", motion_right),
   ("w", motion_word),
   ("W", motion_WORD),
   ("b", motion_word_back),
   ("B", motion_WORD_back),
   ("e", motion_word_end),
   ("E", motion_WORD_end),
   ("0", motion_line_start),
   ("$", motion_line_end),
   ("G", motion_last_line),
   ("f", motion_find_char),
   ("F", motion_find_char_back),
   ("t", motion_till_char),
   ("T", motion_till_char_back),
   ("%", motion_matching_bracket)]

/-! ## Bounds of motion results (spec invariant 4). -/

/-- A position is inside the normalized bounds of `text`:
`0 ≤ row < len(lines)` and `0 ≤ col ≤ len(lines[row])` (the lower bounds
hold by the `Nat` type). -/
def inBounds (text : String) (p : Position) : Prop :=
  p.row < (linesOfText text).length ∧
    p.col ≤ ((linesOfText text).getD p.row []).length

instance (text : String) (p : Position) : Decidable (inBounds text p) := by
  unfold inBounds
  infer_instance

/-! ## Stay-in-place characterization of the character search motions. -/

/-- The result a character-search motion returns when it does not move:
the normalized starting position, with no range. -/
def motionStay (text : String) (row col : Int) : MotionResult :=
  ⟨⟨(_normalize text row col).row, (_normalize text row col).col⟩, none⟩

/-! ## Process worker client (`process_worker_client.py`).

`ProcessWorkerClient.execute` sends an `exec` frame and blocks on a
`recv` loop over the pipe.  The loop is modelled over the list of frames
the client will receive, in arrival order; an exhausted list is the
`EOFError` case.  Message payloads are dictionaries; the fields the client
reads are modelled as optional fields (`dict.get` returns `None` when
absent).  The `result` object is opaque to the client and modelled as an
uninterpreted `Nat`; `elapsed_ms` is an int stand-in for the float the
client never inspects. -/

structure WireMsg where
  id : Option Int
  mtype : Option String
  result : Option Nat
  elapsed_ms : Option Int
  message : Option String
deriving DecidableEq, Repr

/-- `ProcessQueryOutcome` (dataclass). -/
structure ProcessQueryOutcome where
  result : Option Nat
  elapsed_ms : Int
  cancelled : Bool
  error : Option String
deriving DecidableEq, Repr

/-- The `while True: message = self._conn.recv()` loop of
`ProcessWorkerClient.execute`. -/
def recvLoop (query_id : Nat) : List WireMsg → ProcessQueryOutcome
  | [] => ⟨none, 0, false, some "Worker connection closed."⟩
  | m :: rest =>
    if m.id ≠ some (query_id : Int) then recvLoop query_id rest
    else if m.mtype = some "result" then ⟨m.result, m.elapsed_ms.getD 0, false, none⟩
    else if m.mtype = some "cancelled" then ⟨none, 0, true, none⟩
    else if m.mtype = some "error" then
      ⟨none, 0, false, some (m.message.getD "Worker error.")⟩
    else recvLoop query_id rest

/-- The client state relevant to id assignment (`_next_id` starts at 1 and
is incremented under `_execute_lock`; `_closed` is set by `close`). -/
structure ClientState where
  next_id : Nat
  closed : Bool
deriving DecidableEq, Repr

/-- `ProcessWorkerClient.execute`, returning the outcome, the assigned
query id (none when the client is closed) and the updated state. -/
def executeM (s : ClientState) (frames : List WireMsg) :
    ProcessQueryOutcome × Option Nat × ClientState :=
  if s.closed then (⟨none, 0, false, some "Worker is closed."⟩, none, s)
  else (recvLoop s.next_id frames, some s.next_id, ⟨s.next_id + 1, s.closed⟩)

/-- The ids assigned over a sequence of `execute` calls. -/
def execManyIds (s : ClientState) : List (List WireMsg) → List Nat
  | [] => []
  | frames :: rest =>
    match (executeM s frames).2.1 with
    | some qid => qid :: execManyIds (executeM s frames).2.2 rest
    | none => execManyIds (executeM s frames).2.2 rest

/-- Terminal frame types that end the recv loop. -/
def isTerminalType (t : Option String) : Bool :=
  t == some "result" || t == some "cancelled" || t == some "error"

/-- What the client returns for a matching terminal frame. -/
def deliverMsg (m : WireMsg) : ProcessQueryOutcome :=
  if m.mtype = some "result" then ⟨m.result, m.elapsed_ms.getD 0, false, none⟩
  else if m.mtype = some "cancelled" then ⟨none, 0, true, none⟩
  else ⟨none, 0, false, some (m.message.getD "Worker error.")⟩

/-- The outcome on end-of-stream. -/
def eofOutcome : ProcessQueryOutcome := ⟨none, 0, false, some "Worker connection closed."⟩

/-! ## Process worker (`process_worker.py`).

The worker loop is modelled as a step function over a worker state and
events: receipt of a message, or completion of the query thread (the
`run()` closure of `_start_query`).  The statement splitter and the
provider catalog live outside `src/` and are passed as parameters
(`split`, `known_db`); the tunnel object is modelled by its cache key. -/

/-- The fields of an `exec` message the worker reads.  `id` is already
coerced (`int(message.get("id", 0))`); `db_type` and the config's `db_type`
are the strings the worker `or`-chains (absent → `""`); `tunnel_key` is
`_tunnel_key(config)`. -/
structure ExecMsg where
  id : Int
  query : String
  db_type : String
  config_db_type : String
  tunnel_key : Option (List String)
deriving DecidableEq, Repr

inductive WorkerMsg where
  | exec (m : ExecMsg)
  | cancel (id : Int)
  | shutdown
  | unknown
deriving DecidableEq, Repr

/-- A frame sent from the worker to the client. -/
inductive WFrame where
  | result (id : Int) (kind : String)
  | cancelled (id : Int)
  | error (id : Int) (message : String)
deriving DecidableEq, Repr

def WFrame.idOf : WFrame → Int
  | .result i _ => i
  | .cancelled i => i
  | .error i _ => i

/-- The in-flight `CancellableQuery` as the worker sees it: the id its
`run()` closure captured and its sticky cancel flag. -/
structure RunningQuery where
  query_id : Int
  cancelled : Bool
deriving DecidableEq, Repr

/-- `_WorkerState`: `current_thread` is `none` when no thread object is
held, `some alive` otherwise (`alive` = `is_alive()`). -/
structure WorkerState where
  current_id : Option Int
  current_query : Option RunningQuery
  current_thread : Option Bool
  tunnel_key : Option (List String)
deriving DecidableEq, Repr

/-- `_WorkerState._ensure_tunnel`, tracked by cache key only. -/
def ensure_tunnel (s : WorkerState) (key : Option (List String)) : WorkerState :=
  match key with
  | none => { s with tunnel_key := none }
  | some k => if s.tunnel_key = some k then s else { s with tunnel_key := some k }

/-- Model of Python `str.strip()` on both ends (kernel-computable, unlike
`String.trim`). -/
def pyStrip (s : String) : String :=
  String.mk (((s.toList.dropWhile Char.isWhitespace).reverse.dropWhile
    Char.isWhitespace).reverse)

/-- `str(message.get("db_type") or config.db_type or "").strip()`. -/
def resolved_db_type (m : ExecMsg) : String :=
  pyStrip (if m.db_type ≠ "" then m.db_type else m.config_db_type)

/-- `_WorkerState._start_query` (validation plus thread start; the thread
body itself is the `finish` event below). -/
def start_query (split : String → List String) (known_db : String → Bool)
    (s : WorkerState) (m : ExecMsg) : WorkerState × List WFrame :=
  let db := resolved_db_type m
  if db = "" then
    (s, [WFrame.error m.id "Missing database type for process worker."])
  else if (split m.query).length > 1 then
    (s, [WFrame.error m.id "Multi-statement queries are not supported in the process worker."])
  else if ¬known_db db then
    (s, [WFrame.error m.id ("Unknown database type for process worker: " ++ db)])
  else
    let s1 := ensure_tunnel s m.tunnel_key
    ({ s1 with
        current_id := some m.id,
        current_query := some ⟨m.id, false⟩,
        current_thread := some true }, [])

/-- `_WorkerState._cancel_current`. -/
def cancel_current (s : WorkerState) (query_id : Int) : WorkerState :=
  if s.current_id ≠ some query_id then s
  else
    match s.current_query with
    | some q => { s with current_query := some { q with cancelled := true } }
    | none => s

/-- Outcome of `cancellable.execute` inside the `run()` thread body. -/
inductive RunOutcome where
  | okQuery
  | okNonQuery
  | unsupported
  | exn (message : String)
deriving DecidableEq, Repr

def listStartsWith : List Char → List Char → Bool
  | _, [] => true
  | [], _ :: _ => false
  | h1 :: t1, h2 :: t2 => if h1 = h2 then listStartsWith t1 t2 else false

def containsSub : List Char → List Char → Bool
  | [], needle => needle.isEmpty
  | a :: t, needle => listStartsWith (a :: t) needle || containsSub t needle

/-- `"cancelled" in str(exc).lower()`. -/
def mentionsCancelled (message : String) : Bool :=
  containsSub (message.toList.map Char.toLower) "cancelled".toList

/-- The frame the `run()` closure sends when the query finishes. -/
def finish_frame (q : RunningQuery) (o : RunOutcome) : WFrame :=
  match o with
  | .okQuery => .result q.query_id "query"
  | .okNonQuery => .result q.query_id "non_query"
  | .unsupported => .error q.query_id "Unsupported query result."
  | .exn msg =>
    if q.cancelled || mentionsCancelled msg then .cancelled q.query_id
    else .error q.query_id msg

inductive WorkerEvent where
  | recv (m : WorkerMsg)
  | finish (o : RunOutcome)
deriving DecidableEq, Repr

/-- One step of the worker: the dispatch of `run_process_worker` on a
received message, or the completion of the query thread. -/
def worker_step (split : String → List String) (known_db : String → Bool)
    (s : WorkerState) (e : WorkerEvent) : WorkerState × List WFrame :=
  match e with
  | .recv msg =>
    match msg with
    | .exec m =>
      if s.current_thread = some true then
        (s, [WFrame.error m.id "Worker is busy."])
      else start_query split known_db s m
    | .cancel qid => (cancel_current s qid, [])
    | .shutdown => (s, [])
    | .unknown => (s, [])
  | .finish o =>
    match s.current_query with
    | some q => ({ s with current_thread := some false }, [finish_frame q o])
    | none => (s, [])

/-- `_WorkerState._cleanup_current` (run at the top of every loop
iteration): a finished thread is joined and the query slots cleared. -/
def cleanup_current (s : WorkerState) : WorkerState :=
  if s.current_thread = some false then
    { s with current_thread := none, current_query := none, current_id := none }
  else s

/-! ## UI query routing (`query_execution.py`, `_run_query_async`).

The routing decision of `_run_query_async` is modelled as a function of
the connection state, the runtime flags, the transaction flag and the
query; the helpers that live outside `src/` (`parse_use_statement`,
`split_statements`, `is_transaction_start`, `is_transaction_end`) are
parameters, so the theorems hold for every implementation of them. -/

inductive QueryRoute where
  /-- `if not provider or not config: _display_query_error("Not connected")`. -/
  | notConnected
  /-- the `parse_use_statement` early return (database switch, no execution). -/
  | useHandled (db : String)
  /-- `client.execute` on the `ProcessWorkerClient`. -/
  | worker
  /-- `MultiStatementExecutor(executor).execute` on the local `TransactionExecutor`. -/
  | multiLocal
  /-- `executor.execute` on the local `TransactionExecutor`. -/
  | singleLocal
deriving DecidableEq, Repr

def run_query_route (connected : Bool) (process_worker_flag : Bool)
    (client_available : Bool) (in_transaction : Bool)
    (parse_use : String → Option String) (split : String → List String)
    ( is_tx_start is_tx_end : String → Bool) (query : String) : QueryRoute :=
  if !connected then .notConnected
  else
    match parse_use query with
    | some db => .useHandled db
    | none =>
      let statements := split query
      let is_multi : Bool := statements.length > 1
      let upw0 := process_worker_flag
      let upw1 :=
        if upw0 && !statements.isEmpty &&
            (in_transaction || is_tx_start (pyStrip (statements.headD "")) ||
              is_tx_end (pyStrip (statements.headD ""))) then false
        else upw0
      let upw2 := if upw1 && !is_multi && !client_available then false else upw1
      if upw2 && !is_multi then .worker
      else if is_multi then .multiLocal
      else .singleLocal

/-! Spec-modelled helpers for the definitions that sit outside `src/`
(used only to instantiate the parametric theorems at concrete inputs). -/

/-- A statement accumulated by the splitter: reversed characters, stripped;
empty pieces are dropped. -/
def splitStmtsPiece (acc : List Char) : List String :=
  let s := pyStrip (String.mk acc.reverse)
  if s = "" then [] else [s]

/-- Modelled from the spec: the character walk of `split_statements`
(`multi_statement.py` is not under `src/`): "naive splitter honoring
string literals and line comments" (§4.2).  State: optional open quote,
in-line-comment flag. -/
def splitStmtsGo : List Char → Option Char → Bool → List Char → List String → List String
  | [], _, _, acc, out => out ++ splitStmtsPiece acc
  | ch :: rest, quote, true, acc, out =>
      splitStmtsGo rest quote (ch != '\n') (ch :: acc) out
  | ch :: rest, some q, false, acc, out =>
      if ch = q then splitStmtsGo rest none false (ch :: acc) out
      else splitStmtsGo rest (some q) false (ch :: acc) out
  | ch :: rest, none, false, acc, out =>
      if ch = ';' then splitStmtsGo rest none false [] (out ++ splitStmtsPiece acc)
      else if ch = Char.ofNat 39 ∨ ch = '"' then
        splitStmtsGo rest (some ch) false (ch :: acc) out
      else if ch = '-' ∧ rest.headD ' ' = '-' then
        splitStmtsGo rest none true (ch :: acc) out
      else splitStmtsGo rest none false (ch :: acc) out

/-- Modelled from the spec: `split_statements(sql)` (§4.2, §4.6). -/
def split_statements (sql : String) : List String :=
  splitStmtsGo sql.toList none false [] []

/-- Whitespace word split (dropping empty words). -/
def splitWsGo : List Char → List Char → List (List Char)
  | [], acc => if acc.isEmpty then [] else [acc.reverse]
  | c :: rest, acc =>
    if c.isWhitespace then
      (if acc.isEmpty then [] else [acc.reverse]) ++ splitWsGo rest []
    else splitWsGo rest (c :: acc)

def splitWs (l : List Char) : List (List Char) := splitWsGo l []

/-- Modelled from the spec: `parse_use_statement(query)` (`query_service.py`
is not under `src/`): recognition of `USE <db>` (§1 non-goals, §4.5) —
case-insensitive keyword, one identifier, optional trailing semicolon. -/
def parse_use_statement (query : String) : Option String :=
  let chars := (pyStrip query).toList
  let chars := if chars.getLast? = some ';' then chars.dropLast else chars
  match splitWs chars with
  | [kw, db] =>
    if (kw.map Char.toLower) = "use".toList ∧ db ≠ [] ∧
        db.all (fun c => c.isAlphanum || c == '_') then
      some (String.mk db)
    else none
  | _ => none

/-- Modelled from the spec: `is_transaction_start(sql)` (`transaction.py`
is not under `src/`): `BEGIN | START TRANSACTION`, case-insensitive,
leading whitespace stripped (§4.5). -/
def is_transaction_start (sql : String) : Bool :=
  let ws := splitWs (sql.toList.map Char.toUpper)
  ws.headD [] == "BEGIN".toList ||
    (ws.headD [] == "START".toList && ws.getD 1 [] == "TRANSACTION".toList)

/-- Modelled from the spec: `is_transaction_end(sql)` (`transaction.py` is
not under `src/`): `COMMIT | END | ROLLBACK`, case-insensitive, leading
whitespace stripped (§4.5). -/
def is_transaction_end (sql : String) : Bool :=
  let ws := splitWs (sql.toList.map Char.toUpper)
  ws.headD [] == "COMMIT".toList || ws.headD [] == "END".toList ||
    ws.headD [] == "ROLLBACK".toList

/-! ## Azure SQL adapter (`db/adapters/azure_sql.py`).

`_get_cursor_for_database` is effectful through the driver connection
object; the embedding records the driver-level actions the adapter
performs (the vocabulary also covers what a database-switching
implementation would do: executing a `USE` statement or opening a second
connection).  Azure's override only calls `conn.cursor()`. -/

/-- A driver connection handle, identified and bound to one database. -/
structure MSSQLConnection where
  connId : Nat
  database : String
deriving DecidableEq, Repr

/-- A driver cursor, bound to the connection that created it. -/
structure MSSQLCursor where
  conn : MSSQLConnection
deriving DecidableEq, Repr

/-- Driver-level actions an adapter can perform while producing a cursor. -/
inductive DbAction where
  | cursorCall (connId : Nat)
  | execSql (sql : String)
  | openConnection (database : String)
deriving DecidableEq, Repr

/-- `AzureSQLAdapter._get_cursor_for_database(conn, database)`: always just
`return conn.cursor()` (Azure SQL cannot switch databases with `USE`). -/
def AzureSQLAdapter_get_cursor_for_database (conn : MSSQLConnection)
    (database : Option String) : MSSQLCursor × List DbAction :=
  (⟨conn⟩, [DbAction.cursorCall conn.connId])

/-- `AzureSQLAdapter.supports_multiple_databases`. -/
def AzureSQLAdapter_supports_multiple_databases : Bool := false

/-! ## Driver import (`domains/connections/providers/driver.py`).

`import_driver_module` wraps `importlib.import_module`; the underlying
importer is a parameter (it either yields a module or raises an exception,
which is an `ImportError` or some other exception).  `MissingDriverError`
(from `providers/exceptions.py`, not under `src/`) is modelled as a record
with the fields the call sites pass. -/

/-- The fields `MissingDriverError` is constructed with in `driver.py`. -/
structure MissingDriverError where
  driver_name : String
  extra_name : String
  package_name : String
  module_name : Option String
  import_error : Option String
deriving DecidableEq, Repr

/-- An exception raised by `importlib.import_module`. -/
inductive PyExc where
  | importError (message : String)
  | otherError (message : String)
deriving DecidableEq, Repr

/-- Behaviour of the underlying `importlib.import_module` for one module
name: a module value (opaque `Nat`) or a raised exception. -/
inductive ImportResult where
  | ok (module : Nat)
  | raises (e : PyExc)
deriving DecidableEq, Repr

/-- What `import_driver_module` produces for the caller: the module, a
raised `MissingDriverError`, or the raw underlying exception. -/
inductive DriverImportOutcome where
  | ok (module : Nat)
  | missingDriver (e : MissingDriverError)
  | raw (e : PyExc)
deriving DecidableEq, Repr

/-- Python truthiness of `str | None`. -/
def strTruthy : Option String → Bool
  | some s => !s.isEmpty
  | none => false

/-- `import_driver_module(module_name, driver_name=..., extra_name=...,
package_name=...)`.  `importlib` is the underlying import; `envMock`
models `os.environ.get("SQLIT_MOCK_DRIVER_ERROR")` being truthy. -/
def import_driver_module (importlib : String → ImportResult) (envMock : Bool)
    (module_name driver_name : String)
    (extra_name package_name : Option String) : DriverImportOutcome :=
  if envMock && strTruthy extra_name && strTruthy package_name then
    DriverImportOutcome.missingDriver
      ⟨driver_name, extra_name.getD "", package_name.getD "", some module_name,
        some ("No module named " ++ "'" ++ module_name ++ "'")⟩
  else if !strTruthy extra_name || !strTruthy package_name then
    match importlib module_name with
    | .ok m => .ok m
    | .raises e => .raw e
  else
    match importlib module_name with
    | .ok m => .ok m
    | .raises (.importError msg) =>
      .missingDriver
        ⟨driver_name, extra_name.getD "", package_name.getD "", some module_name, some msg⟩
    | .raises (.otherError msg) => .raw (.otherError msg)

/-! ## Lemmas and claim theorems. -/

theorem splitNl_ne_nil (l : List Char) : splitNl l ≠ [] := by
  induction l with
  | nil => simp [splitNl]
  | cons c rest ih =>
    simp only [splitNl]
    split
    · simp
    · cases h : splitNl rest <;> simp

theorem linesOfText_ne_nil (text : String) : linesOfText text ≠ [] := by
  unfold linesOfText
  dsimp only
  split
  · simp
  · exact splitNl_ne_nil _

theorem normalize_lines_eq (text : String) (row col : Int) :
    (_normalize text row col).lines = linesOfText text := rfl

theorem normalize_row_lt (text : String) (row col : Int) :
    (_normalize text row col).row < (_normalize text row col).lines.length := by
  have hne := linesOfText_ne_nil text
  unfold _normalize
  dsimp only
  set lines := linesOfText text with hl
  have hlen : 0 < lines.length := List.length_pos.mpr hne
  have h1 : (min row ((lines.length : Int) - 1)) ≤ (lines.length : Int) - 1 :=
    min_le_right _ _
  have h2 : (max 0 (min row ((lines.length : Int) - 1))) ≤ (lines.length : Int) - 1 := by
    apply max_le _ h1
    omega
  omega

theorem normalize_col_le (text : String) (row col : Int) :
    (_normalize text row col).col ≤
      ((_normalize text row col).lines.getD (_normalize text row col).row []).length := by
  unfold _normalize
  dsimp only
  set lines := linesOfText text with hl
  set r : Nat := (max 0 (min row ((lines.length : Int) - 1))).toNat with hr
  have h1 : (min col (((lines.getD r []).length : Int))) ≤ ((lines.getD r []).length : Int) :=
    min_le_right _ _
  have h2 : (max 0 (min col (((lines.getD r []).length : Int)))) ≤
      ((lines.getD r []).length : Int) := by
    apply max_le _ h1
    omega
  omega

/-- Re-normalizing an already-normalized position is the identity (used
because `motion_till_char` re-enters `motion_find_char` with the clamped
cursor, exactly as the source does). -/
theorem normalize_idem (text : String) (row col : Int) :
    _normalize text ((_normalize text row col).row : Int)
      ((_normalize text row col).col : Int) = _normalize text row col := by
  have hr := normalize_row_lt text row col
  have hc := normalize_col_le text row col
  unfold _normalize at *
  dsimp only at *
  set lines := linesOfText text with hl
  set r : Nat := (max 0 (min row ((lines.length : Int) - 1))).toNat with hr0
  set c : Nat := (max 0 (min col (((lines.getD r []).length : Int)))).toNat with hc0
  have h1 : (max 0 (min (r : Int) ((lines.length : Int) - 1))).toNat = r := by omega
  have h2 : (max 0 (min (c : Int) (((lines.getD r []).length : Int)))).toNat = c := by
    omega
  simp only [Normed.mk.injEq]
  refine ⟨trivial, h1, ?_⟩
  rw [h1]
  exact h2

theorem scanFGo_le (p : Char → Bool) (line : List Char) :
    ∀ fuel col, col ≤ line.length → scanFGo p line fuel col ≤ line.length := by
  intro fuel
  induction fuel with
  | zero => intro col hcol; exact hcol
  | succ k ih =>
    intro col hcol
    unfold scanFGo
    cases h : line.get? col with
    | none => exact hcol
    | some ch =>
      have hlt : col < line.length := by
        by_contra hcon
        rw [List.get?_eq_none.mpr (by omega)] at h
        exact absurd h (by simp)
      by_cases hp : p ch
      · simp only [hp, if_true]
        exact ih (col + 1) (by omega)
      · simpa [hp] using hcol

theorem scanF_le (p : Char → Bool) (line : List Char) :
    ∀ col, col ≤ line.length → scanF p line col ≤ line.length := by
  intro col hcol
  exact scanFGo_le p line _ col hcol

theorem scanB_le (p : Char → Bool) (line : List Char) :
    ∀ col, scanB p line col ≤ col := by
  intro col
  induction col with
  | zero => simp [scanB]
  | succ c ih =>
    unfold scanB
    cases h : line.get? c with
    | none => exact le_refl _
    | some ch =>
      by_cases hp : p ch
      · simp only [hp, if_true]
        omega
      · simp [hp]

theorem scanEGo_lt (p : Char → Bool) (line : List Char) :
    ∀ fuel col, col < line.length → scanEGo p line fuel col < line.length := by
  intro fuel
  induction fuel with
  | zero => intro col hcol; exact hcol
  | succ k ih =>
    intro col hcol
    unfold scanEGo
    cases h : line.get? (col + 1) with
    | none => exact hcol
    | some ch =>
      have hlt : col + 1 < line.length := by
        by_contra hcon
        rw [List.get?_eq_none.mpr (by omega)] at h
        exact absurd h (by simp)
      by_cases hp : p ch
      · simp only [hp, if_true]
        exact ih (col + 1) hlt
      · simpa [hp] using hcol

theorem scanE_lt (p : Char → Bool) (line : List Char) :
    ∀ col, col < line.length → scanE p line col < line.length := by
  intro col hcol
  exact scanEGo_lt p line _ col hcol

theorem scanE_le (p : Char → Bool) (line : List Char) :
    ∀ col, col ≤ line.length → scanE p line col ≤ line.length := by
  intro col hcol
  rcases lt_or_eq_of_le hcol with h | h
  · exact le_of_lt (scanE_lt p line col h)
  · unfold scanE
    rw [h]
    simp [scanEGo]

theorem motion_left_inBounds (text : String) (row col : Int) (char : Option Char) :
    inBounds text (motion_left text row col char).position := by
  have hr := normalize_row_lt text row col
  have hc := normalize_col_le text row col
  simp only [motion_left, inBounds, normalize_lines_eq] at *
  exact ⟨hr, by omega⟩

theorem motion_down_inBounds (text : String) (row col : Int) (char : Option Char) :
    inBounds text (motion_down text row col char).position := by
  have hr := normalize_row_lt text row col
  simp only [motion_down, inBounds, normalize_lines_eq] at *
  constructor
  · omega
  · exact min_le_right _ _

theorem motion_up_inBounds (text : String) (row col : Int) (char : Option Char) :
    inBounds text (motion_up text row col char).position := by
  have hr := normalize_row_lt text row col
  simp only [motion_up, inBounds, normalize_lines_eq] at *
  constructor
  · omega
  · exact min_le_right _ _

theorem motion_right_inBounds (text : String) (row col : Int) (char : Option Char) :
    inBounds text (motion_right text row col char).position := by
  have hr := normalize_row_lt text row col
  simp only [motion_right, inBounds, normalize_lines_eq] at *
  exact ⟨hr, min_le_right _ _⟩

theorem motion_line_start_inBounds (text : String) (row col : Int) (char : Option Char) :
    inBounds text (motion_line_start text row col char).position := by
  have hr := normalize_row_lt text row col
  simp only [motion_line_start, inBounds, normalize_lines_eq] at *
  exact ⟨hr, by omega⟩

theorem motion_line_end_inBounds (text : String) (row col : Int) (char : Option Char) :
    inBounds text (motion_line_end text row col char).position := by
  have hr := normalize_row_lt text row col
  simp only [motion_line_end, inBounds, normalize_lines_eq] at *
  exact ⟨hr, le_refl _⟩

theorem motion_last_line_inBounds (text : String) (row col : Int) (char : Option Char) :
    inBounds text (motion_last_line text row col char).position := by
  have hr := normalize_row_lt text row col
  simp only [motion_last_line, inBounds, normalize_lines_eq] at *
  exact ⟨by omega, by omega⟩

theorem motion_word_inBounds (text : String) (row col : Int) (char : Option Char) :
    inBounds text (motion_word text row col char).position := by
  have hr := normalize_row_lt text row col
  have hc := normalize_col_le text row col
  have hl0 := normalize_lines_eq text row col
  simp only [motion_word, inBounds]
  rcases h : _normalize text row col with ⟨lines, r, c⟩
  rw [h] at hr hc hl0
  dsimp only at hr hc hl0 ⊢
  rw [← hl0] at *
  have h1 : scanF _is_word_char (lines.getD r []) c ≤ (lines.getD r []).length :=
    scanF_le _ _ _ hc
  have h2 := scanF_le (fun ch => !_is_word_char ch && !ch.isWhitespace) (lines.getD r []) _ h1
  have h3 := scanF_le Char.isWhitespace (lines.getD r []) _ h2
  by_cases hadv : scanF Char.isWhitespace (lines.getD r [])
      (scanF (fun ch => !_is_word_char ch && !ch.isWhitespace) (lines.getD r [])
        (scanF _is_word_char (lines.getD r []) c)) ≥ (lines.getD r []).length ∧
      r < lines.length - 1
  · simp only [if_pos hadv]
    exact ⟨by omega, scanF_le _ _ 0 (Nat.zero_le _)⟩
  · simp only [if_neg hadv]
    exact ⟨hr, h3⟩

theorem motion_WORD_inBounds (text : String) (row col : Int) (char : Option Char) :
    inBounds text (motion_WORD text row col char).position := by
  have hr := normalize_row_lt text row col
  have hc := normalize_col_le text row col
  have hl0 := normalize_lines_eq text row col
  simp only [motion_WORD, inBounds]
  rcases h : _normalize text row col with ⟨lines, r, c⟩
  rw [h] at hr hc hl0
  dsimp only at hr hc hl0 ⊢
  rw [← hl0] at *
  have h1 : scanF _is_WORD_char (lines.getD r []) c ≤ (lines.getD r []).length :=
    scanF_le _ _ _ hc
  have h2 := scanF_le Char.isWhitespace (lines.getD r []) _ h1
  by_cases hadv : scanF Char.isWhitespace (lines.getD r [])
      (scanF _is_WORD_char (lines.getD r []) c) ≥ (lines.getD r []).length ∧
      r < lines.length - 1
  · simp only [if_pos hadv]
    exact ⟨by omega, scanF_le _ _ 0 (Nat.zero_le _)⟩
  · simp only [if_neg hadv]
    exact ⟨hr, h2⟩

theorem motion_word_back_inBounds (text : String) (row col : Int) (char : Option Char) :
    inBounds text (motion_word_back text row col char).position := by
  have hr := normalize_row_lt text row col
  have hc := normalize_col_le text row col
  have hl0 := normalize_lines_eq text row col
  simp only [motion_word_back, inBounds]
  rcases h : _normalize text row col with ⟨lines, r, c⟩
  rw [h] at hr hc hl0
  dsimp only at hr hc hl0 ⊢
  rw [← hl0] at *
  by_cases hback : c = 0 ∧ r > 0
  · simp only [if_pos hback]
    refine ⟨by omega, ?_⟩
    have h1 : scanB Char.isWhitespace (lines.getD (r - 1) [])
        (lines.getD (r - 1) []).length ≤ (lines.getD (r - 1) []).length := scanB_le _ _ _
    split
    · split
      · exact le_trans (scanB_le _ _ _) h1
      · exact le_trans (scanB_le _ _ _) h1
    · exact h1
  · simp only [if_neg hback]
    refine ⟨hr, ?_⟩
    have h1 : scanB Char.isWhitespace (lines.getD r []) c ≤ (lines.getD r []).length :=
      le_trans (scanB_le _ _ _) hc
    split
    · split
      · exact le_trans (scanB_le _ _ _) h1
      · exact le_trans (scanB_le _ _ _) h1
    · exact h1

theorem motion_WORD_back_inBounds (text : String) (row col : Int) (char : Option Char) :
    inBounds text (motion_WORD_back text row col char).position := by
  have hr := normalize_row_lt text row col
  have hc := normalize_col_le text row col
  have hl0 := normalize_lines_eq text row col
  simp only [motion_WORD_back, inBounds]
  rcases h : _normalize text row col with ⟨lines, r, c⟩
  rw [h] at hr hc hl0
  dsimp only at hr hc hl0 ⊢
  rw [← hl0] at *
  by_cases hback : c = 0 ∧ r > 0
  · simp only [if_pos hback]
    exact ⟨by omega, le_trans (scanB_le _ _ _) (le_trans (scanB_le _ _ _) (le_refl _))⟩
  · simp only [if_neg hback]
    exact ⟨hr, le_trans (scanB_le _ _ _) (le_trans (scanB_le _ _ _) hc)⟩

/-- The final guarded end-of-word scan of `motion_word_end` stays inside the
line. -/
theorem wordEndScan_le (line : List Char) (x : Nat) (hx : x ≤ line.length) :
    (if x < line.length then
       if _is_word_char (line.getD x ' ') = true then scanE _is_word_char line x
       else scanE (fun ch => !_is_word_char ch && !ch.isWhitespace) line x
     else x) ≤ line.length := by
  split
  · rename_i hlt
    split
    · exact le_of_lt (scanE_lt _ _ _ hlt)
    · exact le_of_lt (scanE_lt _ _ _ hlt)
  · exact hx

theorem motion_word_end_inBounds (text : String) (row col : Int) (char : Option Char) :
    inBounds text (motion_word_end text row col char).position := by
  have hr := normalize_row_lt text row col
  have hc := normalize_col_le text row col
  have hl0 := normalize_lines_eq text row col
  simp only [motion_word_end, inBounds]
  rcases h : _normalize text row col with ⟨lines, r, c⟩
  rw [h] at hr hc hl0
  dsimp only at hr hc hl0 ⊢
  rw [← hl0] at *
  have hA : (if c < (lines.getD r []).length then c + 1 else c) ≤
      (lines.getD r []).length := by
    split <;> omega
  have hB := scanF_le Char.isWhitespace (lines.getD r []) _ hA
  by_cases hadv : scanF Char.isWhitespace (lines.getD r [])
      (if c < (lines.getD r []).length then c + 1 else c) ≥ (lines.getD r []).length ∧
      r < lines.length - 1
  · simp only [if_pos hadv]
    exact ⟨by omega, wordEndScan_le _ _ (scanF_le _ _ 0 (Nat.zero_le _))⟩
  · simp only [if_neg hadv]
    exact ⟨hr, wordEndScan_le _ _ hB⟩

theorem motion_WORD_end_inBounds (text : String) (row col : Int) (char : Option Char) :
    inBounds text (motion_WORD_end text row col char).position := by
  have hr := normalize_row_lt text row col
  have hc := normalize_col_le text row col
  have hl0 := normalize_lines_eq text row col
  simp only [motion_WORD_end, inBounds]
  rcases h : _normalize text row col with ⟨lines, r, c⟩
  rw [h] at hr hc hl0
  dsimp only at hr hc hl0 ⊢
  rw [← hl0] at *
  have hA : (if c < (lines.getD r []).length then c + 1 else c) ≤
      (lines.getD r []).length := by
    split <;> omega
  have hB := scanF_le Char.isWhitespace (lines.getD r []) _ hA
  by_cases hadv : scanF Char.isWhitespace (lines.getD r [])
      (if c < (lines.getD r []).length then c + 1 else c) ≥ (lines.getD r []).length ∧
      r < lines.length - 1
  · simp only [if_pos hadv]
    exact ⟨by omega, scanE_le _ _ _ (scanF_le _ _ 0 (Nat.zero_le _))⟩
  · simp only [if_neg hadv]
    exact ⟨hr, scanE_le _ _ _ hB⟩

/-! ## Properties of the character search loops. -/

theorem findFromGo_some (line : List Char) (c : Char) :
    ∀ fuel i j, findFromGo line c fuel i = some j →
      i ≤ j ∧ j < line.length ∧ line.get? j = some c := by
  intro fuel
  induction fuel with
  | zero => intro i j h; simp [findFromGo] at h
  | succ k ih =>
    intro i j h
    unfold findFromGo at h
    cases hg : line.get? i with
    | none => rw [hg] at h; simp at h
    | some ch =>
      rw [hg] at h
      by_cases he : ch = c
      · simp only [he, if_true] at h
        have hi : i < line.length := by
          by_contra hcon
          rw [List.get?_eq_none.mpr (by omega)] at hg
          exact absurd hg (by simp)
        obtain rfl : i = j := by simpa using h
        exact ⟨le_refl _, hi, by rw [hg, he]⟩
      · simp only [he, if_false] at h
        obtain ⟨h1, h2, h3⟩ := ih (i + 1) j h
        exact ⟨by omega, h2, h3⟩

theorem findFromGo_none_of_not_mem (line : List Char) (c : Char) :
    ∀ fuel i, c ∉ line.drop i → findFromGo line c fuel i = none := by
  intro fuel
  induction fuel with
  | zero => intro i _; rfl
  | succ k ih =>
    intro i hnot
    unfold findFromGo
    cases hg : line.get? i with
    | none => rfl
    | some ch =>
      have hch : ch ∈ line.drop i := by
        rw [List.mem_iff_get?]
        refine ⟨0, ?_⟩
        rw [List.get?_drop]
        simpa using hg
      by_cases he : ch = c
      · exact absurd (he ▸ hch) hnot
      · simp only [he, if_false]
        apply ih
        intro hmem
        exact hnot (List.drop_subset 1 (line.drop i) (by rw [List.drop_drop]; exact hmem))

theorem findFrom_some (line : List Char) (c : Char) (i j : Nat)
    (h : findFrom line c i = some j) :
    i ≤ j ∧ j < line.length ∧ line.get? j = some c :=
  findFromGo_some line c _ i j h

theorem findFrom_none_of_not_mem (line : List Char) (c : Char) (i : Nat)
    (h : c ∉ line.drop i) : findFrom line c i = none :=
  findFromGo_none_of_not_mem line c _ i h

theorem rfindFrom_some (line : List Char) (c : Char) :
    ∀ k j, rfindFrom line c k = some j →
      j < k ∧ j < line.length ∧ line.get? j = some c := by
  intro k
  induction k with
  | zero => intro j h; simp [rfindFrom] at h
  | succ i ih =>
    intro j h
    unfold rfindFrom at h
    by_cases hg : line.get? i = some c
    · simp only [hg, if_pos] at h
      obtain rfl : i = j := by simpa using h
      have hi : i < line.length := by
        by_contra hcon
        rw [List.get?_eq_none.mpr (by omega)] at hg
        exact absurd hg (by simp)
      exact ⟨by omega, hi, hg⟩
    · simp only [hg, if_neg, if_false] at h
      obtain ⟨h1, h2, h3⟩ := ih j h
      exact ⟨by omega, h2, h3⟩

theorem rfindFrom_none_of_not_mem (line : List Char) (c : Char) :
    ∀ k, c ∉ line.take k → rfindFrom line c k = none := by
  intro k
  induction k with
  | zero => intro _; rfl
  | succ i ih =>
    intro hnot
    unfold rfindFrom
    by_cases hg : line.get? i = some c
    · exfalso
      apply hnot
      rw [List.mem_iff_get?]
      exact ⟨i, by rw [List.get?_take (by omega)]; exact hg⟩
    · simp only [hg, if_neg, if_false]
      apply ih
      intro hmem
      exact hnot (List.take_subset_take_left line (by omega) hmem)

/-! ## Bound lemmas for the bracket scans. -/

theorem findBracketFromGo_some (line : List Char) :
    ∀ fuel i j, findBracketFromGo line fuel i = some j → j < line.length := by
  intro fuel
  induction fuel with
  | zero => intro i j h; simp [findBracketFromGo] at h
  | succ k ih =>
    intro i j h
    unfold findBracketFromGo at h
    cases hg : line.get? i with
    | none => rw [hg] at h; simp at h
    | some ch =>
      rw [hg] at h
      by_cases hb : (BRACKET_PAIRS.lookup ch).isSome
      · simp only [hb, if_pos] at h
        obtain rfl : i = j := by simpa using h
        by_contra hcon
        rw [List.get?_eq_none.mpr (by omega)] at hg
        exact absurd hg (by simp)
      · simp only [hb, if_neg, if_false] at h
        exact ih (i + 1) j h

theorem scanBracketLineFGo_inl (ch target : Char) (line : List Char) :
    ∀ fuel depth cpos c', scanBracketLineFGo ch target line fuel depth cpos = Sum.inl c' →
      c' < line.length := by
  intro fuel
  induction fuel with
  | zero => intro depth cpos c' h; simp [scanBracketLineFGo] at h
  | succ k ih =>
    intro depth cpos c' h
    unfold scanBracketLineFGo at h
    cases hg : line.get? cpos with
    | none => rw [hg] at h; simp at h
    | some x =>
      rw [hg] at h
      have hlt : cpos < line.length := by
        by_contra hcon
        rw [List.get?_eq_none.mpr (by omega)] at hg
        exact absurd hg (by simp)
      by_cases h1 : x = ch
      · simp only [h1, if_pos] at h
        exact ih _ _ _ h
      · simp only [h1, if_neg, if_false] at h
        by_cases h2 : x = target
        · simp only [h2, if_pos] at h
          by_cases h3 : depth = 1
          · simp only [h3, if_pos] at h
            obtain rfl : cpos = c' := by simpa using h
            exact hlt
          · simp only [h3, if_neg, if_false] at h
            exact ih _ _ _ h
        · simp only [h2, if_neg, if_false] at h
          exact ih _ _ _ h

theorem scanBracketLineF_inl (ch target : Char) (line : List Char)
    (depth cpos c' : Nat) (h : scanBracketLineF ch target line depth cpos = Sum.inl c') :
    c' < line.length :=
  scanBracketLineFGo_inl ch target line _ depth cpos c' h

theorem scanBracketRowsFGo_some (lines : List (List Char)) (ch target : Char) :
    ∀ fuel depth r cpos r' c',
      scanBracketRowsFGo lines ch target fuel depth r cpos = some (r', c') →
      r' < lines.length ∧ c' < (lines.getD r' []).length := by
  intro fuel
  induction fuel with
  | zero => intro depth r cpos r' c' h; simp [scanBracketRowsFGo] at h
  | succ k ih =>
    intro depth r cpos r' c' h
    unfold scanBracketRowsFGo at h
    by_cases hlt : r < lines.length
    · simp only [hlt, if_pos] at h
      cases hs : scanBracketLineF ch target (lines.getD r []) depth cpos with
      | inl cf =>
        rw [hs] at h
        simp only [Option.some.injEq, Prod.mk.injEq] at h
        obtain ⟨rfl, rfl⟩ := h
        exact ⟨hlt, scanBracketLineF_inl _ _ _ _ _ _ hs⟩
      | inr d' =>
        rw [hs] at h
        exact ih _ _ _ _ _ h
    · simp only [hlt, if_neg, if_false] at h
      exact absurd h (by simp)

theorem scanBracketRowsF_some (lines : List (List Char)) (ch target : Char)
    (depth r cpos r' c' : Nat)
    (h : scanBracketRowsF lines ch target depth r cpos = some (r', c')) :
    r' < lines.length ∧ c' < (lines.getD r' []).length :=
  scanBracketRowsFGo_some lines ch target _ depth r cpos r' c' h

theorem scanBracketLineB_inl (ch target : Char) (line : List Char) :
    ∀ k depth c', scanBracketLineB ch target line depth k = Sum.inl c' →
      c' < line.length := by
  intro k
  induction k with
  | zero => intro depth c' h; simp [scanBracketLineB] at h
  | succ i ih =>
    intro depth c' h
    unfold scanBracketLineB at h
    cases hg : line.get? i with
    | none => rw [hg] at h; exact ih _ _ h
    | some x =>
      rw [hg] at h
      have hlt : i < line.length := by
        by_contra hcon
        rw [List.get?_eq_none.mpr (by omega)] at hg
        exact absurd hg (by simp)
      by_cases h1 : x = ch
      · simp only [h1, if_pos] at h
        exact ih _ _ h
      · simp only [h1, if_neg, if_false] at h
        by_cases h2 : x = target
        · simp only [h2, if_pos] at h
          by_cases h3 : depth = 1
          · simp only [h3, if_pos] at h
            obtain rfl : i = c' := by simpa using h
            exact hlt
          · simp only [h3, if_neg, if_false] at h
            exact ih _ _ h
        · simp only [h2, if_neg, if_false] at h
          exact ih _ _ h

theorem scanBracketRowsB_some (lines : List (List Char)) (ch target : Char) :
    ∀ r depth k r' c', scanBracketRowsB lines ch target depth r k = some (r', c') →
      r' ≤ r ∧ c' < (lines.getD r' []).length := by
  intro r
  induction r with
  | zero =>
    intro depth k r' c' h
    unfold scanBracketRowsB at h
    cases hs : scanBracketLineB ch target (lines.getD 0 []) depth k with
    | inl cf =>
      rw [hs] at h
      simp only [Option.some.injEq, Prod.mk.injEq] at h
      obtain ⟨rfl, rfl⟩ := h
      exact ⟨le_refl _, scanBracketLineB_inl _ _ _ _ _ _ hs⟩
    | inr d' =>
      rw [hs] at h
      simp at h
  | succ rr ih =>
    intro depth k r' c' h
    unfold scanBracketRowsB at h
    cases hs : scanBracketLineB ch target (lines.getD (rr + 1) []) depth k with
    | inl cf =>
      rw [hs] at h
      simp only [Option.some.injEq, Prod.mk.injEq] at h
      obtain ⟨rfl, rfl⟩ := h
      exact ⟨le_refl _, scanBracketLineB_inl _ _ _ _ _ _ hs⟩
    | inr d' =>
      rw [hs] at h
      obtain ⟨h1, h2⟩ := ih _ _ _ _ h
      exact ⟨by omega, h2⟩

/-! ## Bounds of the character search and bracket motions. -/

theorem motion_find_char_inBounds (text : String) (row col : Int) (char : Option Char) :
    inBounds text (motion_find_char text row col char).position := by
  have hr := normalize_row_lt text row col
  have hc := normalize_col_le text row col
  have hl0 := normalize_lines_eq text row col
  simp only [motion_find_char, inBounds]
  rcases h : _normalize text row col with ⟨lines, r, c⟩
  rw [h] at hr hc hl0
  dsimp only at hr hc hl0 ⊢
  rw [← hl0] at *
  cases char with
  | none => exact ⟨hr, hc⟩
  | some ch =>
    dsimp only
    cases hf : findFrom (lines.getD r []) ch (c + 1) with
    | none => exact ⟨hr, hc⟩
    | some i =>
      obtain ⟨_, h2, _⟩ := findFrom_some _ _ _ _ hf
      exact ⟨hr, le_of_lt h2⟩

theorem motion_find_char_back_inBounds (text : String) (row col : Int) (char : Option Char) :
    inBounds text (motion_find_char_back text row col char).position := by
  have hr := normalize_row_lt text row col
  have hc := normalize_col_le text row col
  have hl0 := normalize_lines_eq text row col
  simp only [motion_find_char_back, inBounds]
  rcases h : _normalize text row col with ⟨lines, r, c⟩
  rw [h] at hr hc hl0
  dsimp only at hr hc hl0 ⊢
  rw [← hl0] at *
  cases char with
  | none => exact ⟨hr, hc⟩
  | some ch =>
    dsimp only
    cases hf : rfindFrom (lines.getD r []) ch c with
    | none => exact ⟨hr, hc⟩
    | some i =>
      obtain ⟨_, h2, _⟩ := rfindFrom_some _ _ _ _ hf
      exact ⟨hr, le_of_lt h2⟩

theorem motion_find_char_row (text : String) (row col : Int) (char : Option Char) :
    (motion_find_char text row col char).position.row = (_normalize text row col).row := by
  simp only [motion_find_char]
  cases char with
  | none => rfl
  | some ch =>
    dsimp only
    split <;> rfl

theorem motion_find_char_back_row (text : String) (row col : Int) (char : Option Char) :
    (motion_find_char_back text row col char).position.row =
      (_normalize text row col).row := by
  simp only [motion_find_char_back]
  cases char with
  | none => rfl
  | some ch =>
    dsimp only
    split <;> rfl

theorem motion_till_char_inBounds (text : String) (row col : Int) (char : Option Char) :
    inBounds text (motion_till_char text row col char).position := by
  have hr := normalize_row_lt text row col
  have hc := normalize_col_le text row col
  have hl0 := normalize_lines_eq text row col
  have hidem := normalize_idem text row col
  rw [hl0] at hr hc
  simp only [motion_till_char, inBounds]
  cases char with
  | none => exact ⟨hr, hc⟩
  | some ch =>
    have hrow := motion_find_char_row text ((_normalize text row col).row : Int)
      ((_normalize text row col).col : Int) (some ch)
    rw [hidem] at hrow
    have hfb := motion_find_char_inBounds text ((_normalize text row col).row : Int)
      ((_normalize text row col).col : Int) (some ch)
    unfold inBounds at hfb
    rw [hrow] at hfb
    dsimp only
    split
    · rename_i hgt
      have h2 := hfb.2
      refine ⟨by dsimp only; exact hr, ?_⟩
      dsimp only
      omega
    · rw [hrow]
      exact ⟨hr, hfb.2⟩

theorem motion_till_char_back_inBounds (text : String) (row col : Int) (char : Option Char) :
    inBounds text (motion_till_char_back text row col char).position := by
  have hr := normalize_row_lt text row col
  have hc := normalize_col_le text row col
  have hl0 := normalize_lines_eq text row col
  have hidem := normalize_idem text row col
  rw [hl0] at hr hc
  simp only [motion_till_char_back, inBounds]
  cases char with
  | none => exact ⟨hr, hc⟩
  | some ch =>
    have hrow := motion_find_char_back_row text ((_normalize text row col).row : Int)
      ((_normalize text row col).col : Int) (some ch)
    rw [hidem] at hrow
    have hfb := motion_find_char_back_inBounds text ((_normalize text row col).row : Int)
      ((_normalize text row col).col : Int) (some ch)
    unfold inBounds at hfb
    rw [hrow] at hfb
    dsimp only
    split
    · rename_i hlt
      refine ⟨by dsimp only; exact hr, ?_⟩
      dsimp only
      omega
    · rw [hrow]
      exact ⟨hr, hfb.2⟩

theorem motion_matching_bracket_inBounds (text : String) (row col : Int)
    (char : Option Char) :
    inBounds text (motion_matching_bracket text row col char).position := by
  have hr := normalize_row_lt text row col
  have hc := normalize_col_le text row col
  have hl0 := normalize_lines_eq text row col
  simp only [motion_matching_bracket, inBounds]
  rcases h : _normalize text row col with ⟨lines, r, c⟩
  rw [h] at hr hc hl0
  dsimp only at hr hc hl0 ⊢
  rw [← hl0] at *
  by_cases hcl : c ≥ (lines.getD r []).length
  · simp only [if_pos hcl]
    exact ⟨hr, hc⟩
  · simp only [if_neg hcl]
    cases hfound : (if (BRACKET_PAIRS.lookup ((lines.getD r []).getD c ' ')).isSome
        then some c else findBracketFrom (lines.getD r []) c) with
    | none => exact ⟨hr, hc⟩
    | some c0 =>
      dsimp only
      split
      · -- forward bracket scan
        cases hs : scanBracketRowsF lines ((lines.getD r []).getD c0 ' ')
            ((BRACKET_PAIRS.lookup ((lines.getD r []).getD c0 ' ')).getD ' ') 1 r (c0 + 1) with
        | none => exact ⟨hr, hc⟩
        | some rc =>
          obtain ⟨h1, h2⟩ := scanBracketRowsF_some _ _ _ _ _ _ _ _ hs
          exact ⟨h1, le_of_lt h2⟩
      · -- backward bracket scan
        cases hs : scanBracketRowsB lines ((lines.getD r []).getD c0 ' ')
            ((BRACKET_PAIRS.lookup ((lines.getD r []).getD c0 ' ')).getD ' ') 1 r c0 with
        | none => exact ⟨hr, hc⟩
        | some rc =>
          obtain ⟨h1, h2⟩ := scanBracketRowsB_some _ _ _ _ _ _ _ _ hs
          exact ⟨lt_of_le_of_lt h1 hr, le_of_lt h2⟩

theorem motion_find_char_stay (text : String) (row col : Int) (c : Char)
    (h : c ∉ ((_normalize text row col).lines.getD (_normalize text row col).row []).drop
      ((_normalize text row col).col + 1)) :
    motion_find_char text row col (some c) = motionStay text row col := by
  simp only [motion_find_char, motionStay]
  rw [findFrom_none_of_not_mem _ _ _ h]

theorem motion_find_char_back_stay (text : String) (row col : Int) (c : Char)
    (h : c ∉ ((_normalize text row col).lines.getD (_normalize text row col).row []).take
      (_normalize text row col).col) :
    motion_find_char_back text row col (some c) = motionStay text row col := by
  simp only [motion_find_char_back, motionStay]
  rw [rfindFrom_none_of_not_mem _ _ _ h]

theorem motion_till_char_row (text : String) (row col : Int) (char : Option Char) :
    (motion_till_char text row col char).position.row = (_normalize text row col).row := by
  simp only [motion_till_char]
  cases char with
  | none => rfl
  | some ch =>
    dsimp only
    split
    · rfl
    · have h := motion_find_char_row text ((_normalize text row col).row : Int)
        ((_normalize text row col).col : Int) (some ch)
      rw [normalize_idem] at h
      exact h

theorem motion_till_char_back_row (text : String) (row col : Int) (char : Option Char) :
    (motion_till_char_back text row col char).position.row =
      (_normalize text row col).row := by
  simp only [motion_till_char_back]
  cases char with
  | none => rfl
  | some ch =>
    dsimp only
    split
    · rfl
    · have h := motion_find_char_back_row text ((_normalize text row col).row : Int)
        ((_normalize text row col).col : Int) (some ch)
      rw [normalize_idem] at h
      exact h

theorem motion_till_char_stay (text : String) (row col : Int) (c : Char)
    (h : c ∉ ((_normalize text row col).lines.getD (_normalize text row col).row []).drop
      ((_normalize text row col).col + 1)) :
    motion_till_char text row col (some c) = motionStay text row col := by
  have hidem := normalize_idem text row col
  have hstay : motion_find_char text ((_normalize text row col).row : Int)
      ((_normalize text row col).col : Int) (some c) =
      motionStay text ((_normalize text row col).row : Int)
        ((_normalize text row col).col : Int) := by
    apply motion_find_char_stay
    rw [hidem]
    exact h
  have hstay2 : motionStay text ((_normalize text row col).row : Int)
      ((_normalize text row col).col : Int) = motionStay text row col := by
    simp only [motionStay, hidem]
  simp only [motion_till_char]
  rw [hstay, hstay2]
  rw [if_neg (by simp only [motionStay]; omega)]

theorem motion_till_char_back_stay (text : String) (row col : Int) (c : Char)
    (h : c ∉ ((_normalize text row col).lines.getD (_normalize text row col).row []).take
      (_normalize text row col).col) :
    motion_till_char_back text row col (some c) = motionStay text row col := by
  have hidem := normalize_idem text row col
  have hstay : motion_find_char_back text ((_normalize text row col).row : Int)
      ((_normalize text row col).col : Int) (some c) =
      motionStay text ((_normalize text row col).row : Int)
        ((_normalize text row col).col : Int) := by
    apply motion_find_char_back_stay
    rw [hidem]
    exact h
  have hstay2 : motionStay text ((_normalize text row col).row : Int)
      ((_normalize text row col).col : Int) = motionStay text row col := by
    simp only [motionStay, hidem]
  simp only [motion_till_char_back]
  rw [hstay, hstay2]
  rw [if_neg (by simp only [motionStay]; omega)]

/-! ## Claim theorems for the motion engine. -/

/-- C5: on the single-line text "alpha beta gamma" starting from cursor
(0,0): motion w yields (0,6); w again from (0,6) yields (0,11); b from
(0,11) yields (0,6); e from (0,6) yields (0,9); $ from any column of the
line yields (0,16). -/
theorem C5_motion_composition :
    (motion_word "alpha beta gamma" 0 0 none).position = ⟨0, 6⟩ ∧
    (motion_word "alpha beta gamma" 0 6 none).position = ⟨0, 11⟩ ∧
    (motion_word_back "alpha beta gamma" 0 11 none).position = ⟨0, 6⟩ ∧
    (motion_word_end "alpha beta gamma" 0 6 none).position = ⟨0, 9⟩ ∧
    ∀ col : Int, (motion_line_end "alpha beta gamma" 0 col none).position = ⟨0, 16⟩ :=
  ⟨by decide, by decide, by decide, by decide, fun col => rfl⟩

/-- Every entry of the registry satisfies the bound invariant (proved by
walking the registry list entry by entry). -/
theorem motion_pair_inBounds (p : String × (String → Int → Int → Option Char → MotionResult))
    (hp : p ∈ MOTIONS) (text : String) (row col : Int) (char : Option Char) :
    inBounds text (p.2 text row col char).position := by
  simp only [MOTIONS, List.mem_cons, List.not_mem_nil, or_false] at hp
  rcases hp with rfl | hp
  · exact motion_left_inBounds text row col char
  rcases hp with rfl | hp
  · exact motion_down_inBounds text row col char
  rcases hp with rfl | hp
  · exact motion_up_inBounds text row col char
  rcases hp with rfl | hp
  · exact motion_right_inBounds text row col char
  rcases hp with rfl | hp
  · exact motion_word_inBounds text row col char
  rcases hp with rfl | hp
  · exact motion_WORD_inBounds text row col char
  rcases hp with rfl | hp
  · exact motion_word_back_inBounds text row col char
  rcases hp with rfl | hp
  · exact motion_WORD_back_inBounds text row col char
  rcases hp with rfl | hp
  · exact motion_word_end_inBounds text row col char
  rcases hp with rfl | hp
  · exact motion_WORD_end_inBounds text row col char
  rcases hp with rfl | hp
  · exact motion_line_start_inBounds text row col char
  rcases hp with rfl | hp
  · exact motion_line_end_inBounds text row col char
  rcases hp with rfl | hp
  · exact motion_last_line_inBounds text row col char
  rcases hp with rfl | hp
  · exact motion_find_char_inBounds text row col char
  rcases hp with rfl | hp
  · exact motion_find_char_back_inBounds text row col char
  rcases hp with rfl | hp
  · exact motion_till_char_inBounds text row col char
  rcases hp with rfl | rfl
  · exact motion_till_char_back_inBounds text row col char
  · exact motion_matching_bracket_inBounds text row col char

/-- C6: every motion function registered in MOTIONS, applied to any text,
any integer row and col (including negative and out-of-range values) and
any optional char argument, returns a position inside the normalized bounds
of the text: 0 ≤ row < number of lines, 0 ≤ col ≤ length of that line. -/
theorem C6_registered_motions_in_bounds (key : String)
    (f : String → Int → Int → Option Char → MotionResult)
    (hmem : (key, f) ∈ MOTIONS) (text : String) (row col : Int) (char : Option Char) :
    inBounds text (f text row col char).position :=
  motion_pair_inBounds (key, f) hmem text row col char

/-- C6 witness: the bound theorem applied to the registered `w` motion on a
concrete text with an out-of-range cursor. -/
theorem C6_registered_motions_in_bounds_witness :
    ("w", motion_word) ∈ MOTIONS ∧
      inBounds "alpha beta gamma" ((motion_word "alpha beta gamma" (-3) 99 none).position) :=
  ⟨by simp [MOTIONS],
   C6_registered_motions_in_bounds "w" motion_word (by simp [MOTIONS])
     "alpha beta gamma" (-3) 99 none⟩

/-- C10: the character-search motions f, F, t, T never leave the current
line (the result row is always the normalized row), and when the char
argument is missing, or the character does not occur strictly after the
cursor (f, t) or strictly before it (F, T) on the current line, they return
the normalized starting position with no range. -/
theorem C10_char_search_motions (text : String) (row col : Int) :
    (∀ char : Option Char,
        (motion_find_char text row col char).position.row =
          (_normalize text row col).row ∧
        (motion_find_char_back text row col char).position.row =
          (_normalize text row col).row ∧
        (motion_till_char text row col char).position.row =
          (_normalize text row col).row ∧
        (motion_till_char_back text row col char).position.row =
          (_normalize text row col).row) ∧
    (motion_find_char text row col none = motionStay text row col ∧
     motion_find_char_back text row col none = motionStay text row col ∧
     motion_till_char text row col none = motionStay text row col ∧
     motion_till_char_back text row col none = motionStay text row col) ∧
    (∀ c : Char,
      (c ∉ ((_normalize text row col).lines.getD (_normalize text row col).row []).drop
          ((_normalize text row col).col + 1) →
        motion_find_char text row col (some c) = motionStay text row col ∧
        motion_till_char text row col (some c) = motionStay text row col) ∧
      (c ∉ ((_normalize text row col).lines.getD (_normalize text row col).row []).take
          (_normalize text row col).col →
        motion_find_char_back text row col (some c) = motionStay text row col ∧
        motion_till_char_back text row col (some c) = motionStay text row col)) :=
  ⟨fun char =>
    ⟨motion_find_char_row text row col char,
     motion_find_char_back_row text row col char,
     motion_till_char_row text row col char,
     motion_till_char_back_row text row col char⟩,
   ⟨rfl, rfl, rfl, rfl⟩,
   fun c =>
    ⟨fun h => ⟨motion_find_char_stay text row col c h, motion_till_char_stay text row col c h⟩,
     fun h => ⟨motion_find_char_back_stay text row col c h,
               motion_till_char_back_stay text row col c h⟩⟩⟩

/-- C10 witness: searching for a character absent from "alpha beta" leaves
the cursor in place, forward and backward. -/
theorem C10_char_search_motions_witness :
    ('z' ∉ ((_normalize "alpha beta" 0 2).lines.getD
        (_normalize "alpha beta" 0 2).row []).drop ((_normalize "alpha beta" 0 2).col + 1) ∧
      motion_find_char "alpha beta" 0 2 (some 'z') = motionStay "alpha beta" 0 2) ∧
    ('z' ∉ ((_normalize "alpha beta" 0 2).lines.getD
        (_normalize "alpha beta" 0 2).row []).take (_normalize "alpha beta" 0 2).col ∧
      motion_till_char_back "alpha beta" 0 2 (some 'z') = motionStay "alpha beta" 0 2) := by
  have h := C10_char_search_motions "alpha beta" 0 2
  exact ⟨⟨by decide, ((h.2.2 'z').1 (by decide)).1⟩,
         ⟨by decide, ((h.2.2 'z').2 (by decide)).2⟩⟩

theorem executeM_closed (s : ClientState) (frames : List WireMsg)
    (h : s.closed = true) :
    executeM s frames = (⟨none, 0, false, some "Worker is closed."⟩, none, s) := by
  simp [executeM, h]

theorem executeM_open (s : ClientState) (frames : List WireMsg)
    (h : s.closed = false) :
    executeM s frames =
      (recvLoop s.next_id frames, some s.next_id, ⟨s.next_id + 1, false⟩) := by
  simp [executeM, h]

theorem recvLoop_eq_find (qid : Nat) (frames : List WireMsg) :
    recvLoop qid frames =
      match frames.find? (fun m => m.id == some (qid : Int) && isTerminalType m.mtype) with
      | some m => deliverMsg m
      | none => eofOutcome := by
  induction frames with
  | nil => rfl
  | cons m rest ih =>
    by_cases hid : m.id = some (qid : Int)
    · by_cases h1 : m.mtype = some "result"
      · simp [recvLoop, List.find?, hid, h1, isTerminalType, deliverMsg]
      · by_cases h2 : m.mtype = some "cancelled"
        · simp [recvLoop, List.find?, hid, h1, h2, isTerminalType, deliverMsg]
        · by_cases h3 : m.mtype = some "error"
          · simp [recvLoop, List.find?, hid, h1, h2, h3, isTerminalType, deliverMsg]
          · have hb1 : (m.mtype == some "result") = false := by simpa using h1
            have hb2 : (m.mtype == some "cancelled") = false := by simpa using h2
            have hb3 : (m.mtype == some "error") = false := by simpa using h3
            simp [recvLoop, List.find?, hid, h1, h2, h3, hb1, hb2, hb3, isTerminalType, ih]
    · have hb : (m.id == some (qid : Int)) = false := by simpa using hid
      simp [recvLoop, List.find?, hb, hid, ih]

theorem execManyIds_ge (runs : List (List WireMsg)) :
    ∀ s x, x ∈ execManyIds s runs → s.next_id ≤ x := by
  induction runs with
  | nil => intro s x h; simp [execManyIds] at h
  | cons frames rest ih =>
    intro s x h
    by_cases hcl : s.closed
    · rw [execManyIds, executeM_closed s frames hcl] at h
      exact ih s x h
    · have hcl2 : s.closed = false := by simpa using hcl
      rw [execManyIds, executeM_open s frames hcl2] at h
      rcases List.mem_cons.mp h with h | h
      · omega
      · have h2 := ih ⟨s.next_id + 1, false⟩ x h
        simp only at h2
        omega

theorem execManyIds_pairwise (runs : List (List WireMsg)) :
    ∀ s, (execManyIds s runs).Pairwise (· < ·) := by
  induction runs with
  | nil => intro s; simp [execManyIds]
  | cons frames rest ih =>
    intro s
    by_cases hcl : s.closed
    · rw [execManyIds, executeM_closed s frames hcl]
      exact ih s
    · have hcl2 : s.closed = false := by simpa using hcl
      rw [execManyIds, executeM_open s frames hcl2]
      refine List.Pairwise.cons ?_ (ih _)
      intro x hx
      have h2 := execManyIds_ge rest ⟨s.next_id + 1, false⟩ x hx
      simp only at h2
      omega

/-- C2: over any sequence of `execute` calls the assigned query ids are
strictly increasing (each fresh id exceeds every previously assigned one);
for a single call on an open client, the assigned id is `next_id`, the
counter advances, and the outcome is determined exactly by the first
received frame whose id equals the assigned id and whose type is result,
cancelled or error — or by end-of-stream; any frame with a different id is
skipped and never delivered. -/
theorem C2_client_ids_and_frame_filtering :
    (∀ (s : ClientState) (runs : List (List WireMsg)),
        (execManyIds s runs).Pairwise (· < ·)) ∧
    (∀ (s : ClientState) (frames : List WireMsg), s.closed = false →
        (executeM s frames).2.1 = some s.next_id ∧
        (executeM s frames).2.2.next_id = s.next_id + 1 ∧
        (executeM s frames).1 =
          match frames.find?
              (fun m => m.id == some (s.next_id : Int) && isTerminalType m.mtype) with
          | some m => deliverMsg m
          | none => eofOutcome) ∧
    (∀ (qid : Nat) (m : WireMsg) (rest : List WireMsg), m.id ≠ some (qid : Int) →
        recvLoop qid (m :: rest) = recvLoop qid rest) :=
  ⟨fun s runs => execManyIds_pairwise runs s,
   fun s frames h => by
    rw [executeM_open s frames h]
    exact ⟨rfl, rfl, recvLoop_eq_find s.next_id frames⟩,
   fun qid m rest h => by simp [recvLoop, h]⟩

/-- C2 witness: a concrete run where a stale frame (id 4) is skipped and
the error frame with the assigned id 5 is delivered. -/
theorem C2_client_ids_and_frame_filtering_witness :
    (executeM ⟨5, false⟩
      [⟨some 4, some "result", some 0, some 1, none⟩,
       ⟨some 5, some "error", none, none, some "boom"⟩]).1 =
        ⟨none, 0, false, some "boom"⟩ ∧
    (executeM ⟨5, false⟩
      [⟨some 4, some "result", some 0, some 1, none⟩,
       ⟨some 5, some "error", none, none, some "boom"⟩]).2.1 = some 5 := by
  have h := C2_client_ids_and_frame_filtering.2.1 ⟨5, false⟩
    [⟨some 4, some "result", some 0, some 1, none⟩,
     ⟨some 5, some "error", none, none, some "boom"⟩] rfl
  refine ⟨?_, h.1⟩
  rw [h.2.2]
  decide

/-! ## Claim theorems for the worker. -/

/-- C3: an exec received while the previous exec's query thread is still
alive is answered with an error frame carrying the new message's id and
the text "Worker is busy."; no second query is started (the state is
unchanged); and the in-flight query still produces its own completion
frame, carrying its own id, when it finishes. -/
theorem C3_worker_busy_rejection (split : String → List String)
    (known_db : String → Bool) (s : WorkerState) (m : ExecMsg)
    (hbusy : s.current_thread = some true) :
    worker_step split known_db s (.recv (.exec m)) =
      (s, [WFrame.error m.id "Worker is busy."]) ∧
    (∀ (q : RunningQuery) (o : RunOutcome), s.current_query = some q →
      worker_step split known_db s (.finish o) =
        ({ s with current_thread := some false }, [finish_frame q o]) ∧
      (finish_frame q o).idOf = q.query_id) := by
  constructor
  · simp [worker_step, hbusy]
  · intro q o hq
    constructor
    · simp [worker_step, hq]
    · cases o with
      | okQuery => rfl
      | okNonQuery => rfl
      | unsupported => rfl
      | exn msg =>
        simp only [finish_frame]
        split <;> rfl

/-- C3 witness: while query 1 is in flight, exec 2 is rejected with
"Worker is busy." and query 1 still yields its own result frame. -/
theorem C3_worker_busy_rejection_witness :
    worker_step (fun q => [q]) (fun _ => true)
        ⟨some 1, some ⟨1, false⟩, some true, none⟩
        (.recv (.exec ⟨2, "SELECT 1", "sqlite", "", none⟩)) =
      (⟨some 1, some ⟨1, false⟩, some true, none⟩,
       [WFrame.error 2 "Worker is busy."]) ∧
    worker_step (fun q => [q]) (fun _ => true)
        ⟨some 1, some ⟨1, false⟩, some true, none⟩ (.finish .okQuery) =
      (⟨some 1, some ⟨1, false⟩, some false, none⟩, [WFrame.result 1 "query"]) := by
  have h := C3_worker_busy_rejection (fun q => [q]) (fun _ => true)
    ⟨some 1, some ⟨1, false⟩, some true, none⟩ ⟨2, "SELECT 1", "sqlite", "", none⟩ rfl
  exact ⟨h.1, (h.2 ⟨1, false⟩ .okQuery rfl).1⟩

/-- C9: a cancel message whose id differs from the in-flight exec's id
(including when no query is in flight, where `current_id` is `None`) has
no effect: the worker state (current_id, current_query, current_thread,
tunnel) is unchanged and no reply frame is sent. -/
theorem C9_mismatched_cancel_no_effect (split : String → List String)
    (known_db : String → Bool) (s : WorkerState) (qid : Int)
    (h : s.current_id ≠ some qid) :
    worker_step split known_db s (.recv (.cancel qid)) = (s, []) := by
  simp [worker_step, cancel_current, h]

/-- C9 witness: cancelling id 2 while query 1 is in flight does nothing. -/
theorem C9_mismatched_cancel_no_effect_witness :
    worker_step (fun q => [q]) (fun _ => true)
        ⟨some 1, some ⟨1, false⟩, some true, some ["h"]⟩ (.recv (.cancel 2)) =
      (⟨some 1, some ⟨1, false⟩, some true, some ["h"]⟩, []) :=
  C9_mismatched_cancel_no_effect (fun q => [q]) (fun _ => true)
    ⟨some 1, some ⟨1, false⟩, some true, some ["h"]⟩ 2 (by decide)

/-- C1 (amended): for a non-empty statement list, when the executor is in
a transaction or the first statement is a transaction sentinel, the query
is never submitted to the process worker client; and when additionally a
connection is established and the query is not recognized as a USE
statement, it executes on the local TransactionExecutor (directly or via
MultiStatementExecutor). -/
theorem C1_transaction_statements_stay_local
    (connected pw client in_tx : Bool) (parse_use : String → Option String)
    (split : String → List String) ( is_s is_e : String → Bool) (query : String)
    (hne : split query ≠ [])
    (hsent : in_tx = true ∨ is_s (pyStrip ((split query).headD "")) = true ∨
      is_e (pyStrip ((split query).headD "")) = true) :
    run_query_route connected pw client in_tx parse_use split is_s is_e query ≠
      QueryRoute.worker ∧
    (connected = true → parse_use query = none →
      (run_query_route connected pw client in_tx parse_use split is_s is_e query =
          QueryRoute.multiLocal ∨
        run_query_route connected pw client in_tx parse_use split is_s is_e query =
          QueryRoute.singleLocal)) := by
  unfold run_query_route
  cases connected with
  | false => exact ⟨by simp, by simp⟩
  | true =>
    simp only [Bool.not_true, Bool.false_eq_true, if_false]
    cases hp : parse_use query with
    | some db => exact ⟨by simp, fun _ h => by simp at h⟩
    | none =>
      dsimp only
      have hempty : (split query).isEmpty = false := by
        cases hq : split query with
        | nil => exact absurd hq hne
        | cons a t => rfl
      rw [hempty]
      generalize is_s (pyStrip ((split query).headD "")) = S at hsent ⊢
      generalize is_e (pyStrip ((split query).headD "")) = E at hsent ⊢
      generalize decide ((split query).length > 1) = M
      revert hsent
      revert pw client in_tx S E M
      decide

/-- C1 witness: a ROLLBACK issued while in a transaction, with the
process worker enabled and available, executes locally. -/
theorem C1_transaction_statements_stay_local_witness :
    run_query_route true true true true parse_use_statement split_statements
        is_transaction_start is_transaction_end "ROLLBACK" ≠ QueryRoute.worker ∧
    (run_query_route true true true true parse_use_statement split_statements
        is_transaction_start is_transaction_end "ROLLBACK" = QueryRoute.multiLocal ∨
      run_query_route true true true true parse_use_statement split_statements
        is_transaction_start is_transaction_end "ROLLBACK" = QueryRoute.singleLocal) := by
  have h := C1_transaction_statements_stay_local true true true true
    parse_use_statement split_statements is_transaction_start is_transaction_end
    "ROLLBACK" (by decide) (Or.inl rfl)
  exact ⟨h.1, h.2 rfl (by decide)⟩

/-- C1 counterexample: with the spec-modelled USE recognizer, a `USE`
statement received while in a transaction is handled by the database
switch path and is executed neither locally nor on the worker. -/
theorem C1_counterexample_use_statement_in_transaction :
    split_statements "USE mydb" ≠ [] ∧
    run_query_route true true true true parse_use_statement split_statements
        is_transaction_start is_transaction_end "USE mydb" =
      QueryRoute.useHandled "mydb" ∧
    QueryRoute.useHandled "mydb" ≠ QueryRoute.multiLocal ∧
    QueryRoute.useHandled "mydb" ≠ QueryRoute.singleLocal := by
  exact ⟨by decide, by decide, by decide, by decide⟩

/-- C4 (amended): when the worker is idle and the exec message's resolved
db_type is non-empty, an exec whose query splits into more than one
statement is answered with the error frame "Multi-statement queries are
not supported in the process worker." and nothing is executed (the worker
state is unchanged); the UI query path never routes a query with more
than one statement to the process worker, and — when connected and the
query is not a USE statement — executes it locally via
MultiStatementExecutor. -/
theorem C4_multi_statement_refusal (split : String → List String)
    (known_db : String → Bool) :
    (∀ (s : WorkerState) (m : ExecMsg),
      s.current_thread ≠ some true →
      resolved_db_type m ≠ "" →
      (split m.query).length > 1 →
      worker_step split known_db s (.recv (.exec m)) =
        (s, [WFrame.error m.id
          "Multi-statement queries are not supported in the process worker."])) ∧
    (∀ (connected pw client in_tx : Bool) (parse_use : String → Option String)
        ( is_s is_e : String → Bool) (query : String),
      (split query).length > 1 →
      run_query_route connected pw client in_tx parse_use split is_s is_e query ≠
          QueryRoute.worker ∧
      (connected = true → parse_use query = none →
        run_query_route connected pw client in_tx parse_use split is_s is_e query =
          QueryRoute.multiLocal)) := by
  constructor
  · intro s m hidle hdb hmulti
    simp only [worker_step, start_query]
    rw [if_neg hidle, if_neg hdb, if_pos hmulti]
  · intro connected pw client in_tx parse_use is_s is_e query hmulti
    unfold run_query_route
    cases connected with
    | false => exact ⟨by simp, by simp⟩
    | true =>
      simp only [Bool.not_true, Bool.false_eq_true, if_false]
      cases hp : parse_use query with
      | some db => exact ⟨by simp, fun _ h => by simp at h⟩
      | none =>
        dsimp only
        have hm : decide ((split query).length > 1) = true := by
          simpa using hmulti
        rw [hm]
        generalize (split query).isEmpty = A
        generalize is_s (pyStrip ((split query).headD "")) = S
        generalize is_e (pyStrip ((split query).headD "")) = E
        revert pw client in_tx A S E
        decide

/-- C4 witness: a concrete idle worker refuses a two-statement exec with
the multi-statement error, and the UI routes the same script to the local
multi-statement executor. -/
theorem C4_multi_statement_refusal_witness :
    worker_step split_statements (fun _ => true) ⟨none, none, none, none⟩
        (.recv (.exec ⟨3, "SELECT 1; SELECT 2", "sqlite", "", none⟩)) =
      (⟨none, none, none, none⟩,
       [WFrame.error 3
          "Multi-statement queries are not supported in the process worker."]) ∧
    run_query_route true true true false parse_use_statement split_statements
        is_transaction_start is_transaction_end "SELECT 1; SELECT 2" =
      QueryRoute.multiLocal := by
  have h := C4_multi_statement_refusal split_statements (fun _ => true)
  exact ⟨h.1 ⟨none, none, none, none⟩ ⟨3, "SELECT 1; SELECT 2", "sqlite", "", none⟩
      (by decide) (by decide) (by decide),
    (h.2 true true true false parse_use_statement is_transaction_start
      is_transaction_end "SELECT 1; SELECT 2" (by decide)).2 rfl (by decide)⟩

/-- C4 counterexample: an exec with an empty db_type whose query splits
into two statements is answered with the missing-db-type error, not the
multi-statement error, because `_start_query` checks the database type
first. -/
theorem C4_counterexample_missing_db_type_first :
    (split_statements "SELECT 1; SELECT 2").length > 1 ∧
    worker_step split_statements (fun _ => true) ⟨none, none, none, none⟩
        (.recv (.exec ⟨7, "SELECT 1; SELECT 2", "", "", none⟩)) =
      (⟨none, none, none, none⟩,
       [WFrame.error 7 "Missing database type for process worker."]) ∧
    (WFrame.error 7 "Missing database type for process worker." ≠
      WFrame.error 7 "Multi-statement queries are not supported in the process worker.") :=
  ⟨by decide, by decide, by decide⟩

/-- C7: for every connection and every requested database (including one
different from the configured database), the Azure adapter returns a
cursor on the existing connection, performs no `USE`-style statement
execution and opens no second connection; and
`supports_multiple_databases` is false. -/
theorem C7_azure_no_use_no_second_connection (conn : MSSQLConnection)
    (database : Option String) :
    (AzureSQLAdapter_get_cursor_for_database conn database).1.conn = conn ∧
    (∀ sql, DbAction.execSql sql ∉
      (AzureSQLAdapter_get_cursor_for_database conn database).2) ∧
    (∀ db, DbAction.openConnection db ∉
      (AzureSQLAdapter_get_cursor_for_database conn database).2) ∧
    AzureSQLAdapter_supports_multiple_databases = false := by
  refine ⟨rfl, ?_, ?_, rfl⟩
  · intro sql h
    simp [AzureSQLAdapter_get_cursor_for_database] at h
  · intro db h
    simp [AzureSQLAdapter_get_cursor_for_database] at h

/-- C8 (amended): when an install extra and a package name are both
configured (truthy), an `ImportError` from the underlying import is
surfaced as a `MissingDriverError` carrying the driver name, the extra and
the package name; imports of drivers without both hints, and
non-`ImportError` failures, propagate unwrapped. -/
theorem C8_import_error_wrapped_when_hints_present
    (importlib : String → ImportResult) (module_name driver_name : String)
    (extra_name package_name : Option String) (msg : String)
    (hextra : strTruthy extra_name = true)
    (hpkg : strTruthy package_name = true)
    (himp : importlib module_name = .raises (.importError msg)) :
    import_driver_module importlib false module_name driver_name
        extra_name package_name =
      DriverImportOutcome.missingDriver
        ⟨driver_name, extra_name.getD "", package_name.getD "",
          some module_name, some msg⟩ := by
  unfold import_driver_module
  rw [himp]
  simp [hextra, hpkg]

/-- C8 witness: a concrete wrapped import failure. -/
theorem C8_import_error_wrapped_when_hints_present_witness :
    import_driver_module (fun _ => .raises (.importError "No module named 'pymssql'"))
        false "pymssql" "pymssql" (some "mssql") (some "pymssql") =
      DriverImportOutcome.missingDriver
        ⟨"pymssql", "mssql", "pymssql", some "pymssql",
          some "No module named 'pymssql'"⟩ :=
  C8_import_error_wrapped_when_hints_present
    (fun _ => .raises (.importError "No module named 'pymssql'"))
    "pymssql" "pymssql" (some "mssql") (some "pymssql")
    "No module named 'pymssql'" (by decide) (by decide) rfl

/-- C8 counterexample: when no install extra is configured, an underlying
`ImportError` propagates raw — the caller does observe a raw import
failure, so the import is not always wrapped. -/
theorem C8_counterexample_unwrapped_without_hints :
    import_driver_module (fun _ => .raises (.importError "boom")) false
        "sqlite3" "sqlite3" none none =
      DriverImportOutcome.raw (.importError "boom") ∧
    (∀ e, DriverImportOutcome.raw (.importError "boom") ≠
      DriverImportOutcome.missingDriver e) := by
  refine ⟨by decide, ?_⟩
  intro e h
  exact absurd h (by simp)

end Sqlit
